import Mathlib

/-!
Shallow embedding of the HS-Scheduler course-catalog reconciliation pipeline:
field normalization (`schema.ts`), the catalog merger
(`migrate-schools-to-district`), the semester-pair collapser (`collapse-ab`),
the GPA pass (`migrate-gpa.ts`) and the prerequisite resolver
(`migrate-prerequisites`).  JavaScript strings are modelled as Lean `String`
(lists of characters), numbers as `ℚ`, absent JSON fields as `Option`.
-/

/-! ### Character and string primitives (JS `\s`, `trim`, `toLowerCase`, …) -/

/-- Whitespace class used by the JS string routines (`\s`, `trim`),
restricted to the ASCII whitespace characters that occur in the data. -/
def isWsChar (c : Char) : Bool :=
  c = ' ' || c = '\t' || c = '\n' || c = '\r' || c = '\x0B' || c = '\x0C'

/-- JS `.` in the source regexes: any character except a line terminator. -/
def isDotChar (c : Char) : Bool :=
  !(c = '\n' || c = '\r')

def lcLower (l : List Char) : List Char := l.map Char.toLower

def lcUpper (l : List Char) : List Char := l.map Char.toUpper

/-- `startsWithL p l`: `p` is a prefix of `l` (JS `startsWith`). -/
def startsWithL : List Char → List Char → Bool
  | [], _ => true
  | _ :: _, [] => false
  | a :: ps, b :: ls => a == b && startsWithL ps ls

/-- `containsSub sub l`: `sub` occurs as a contiguous substring of `l`
(JS `includes`). -/
def containsSub (sub : List Char) : List Char → Bool
  | [] => startsWithL sub []
  | c :: rest => startsWithL sub (c :: rest) || containsSub sub rest

/-- JS `trim`: drop whitespace from both ends. -/
def trimL (l : List Char) : List Char :=
  ((l.dropWhile isWsChar).reverse.dropWhile isWsChar).reverse

def strLower (s : String) : String := ⟨lcLower s.data⟩

def strUpper (s : String) : String := ⟨lcUpper s.data⟩

def strTrim (s : String) : String := ⟨trimL s.data⟩

/-- JS `s.includes(sub)`. -/
def strContains (s sub : String) : Bool := containsSub sub.data s.data

/-- JS `s.startsWith(p)`. -/
def strStartsWith (s p : String) : Bool := startsWithL p.data s.data

/-- JS `s.includes(" ")`. -/
def strHasSpace (s : String) : Bool := s.data.any (· == ' ')

/-! ### GPA classifier (`schema.ts`, `calculateGPA`) -/

/-- `calculateGPA(courseName, tags)` from `schema.ts`: AP/KAP evidence in the
uppercased name or tags gives 5.0, Dual-Credit evidence gives 4.5, default 4.0. -/
def calculateGPA (courseName : String) (tags : List String) : ℚ :=
  let nameUpper := strUpper courseName
  let tagsUpper := tags.map strUpper
  if strContains nameUpper "AP" || strContains nameUpper "KAP" ||
      tagsUpper.contains "AP" || tagsUpper.contains "KAP" then
    5
  else if strContains nameUpper "DUAL CREDIT" || tagsUpper.contains "DC" then
    9 / 2
  else
    4

/-! ### Data model -/

/-- The canonical course entity (`CourseSchema` plus the `schools` array used
by the merger).  `gpa` is `Option` because the GPA migration reads raw JSON in
which the field may be absent. -/
structure Course where
  courseCode : String
  courseName : String
  credits : ℚ
  tags : List String
  gpa : Option ℚ
  subject : String
  term : String
  eligibleGrades : List String
  prerequisite : String
  corequisite : String
  enrollmentNotes : String
  courseDescription : String
  schools : List String
deriving DecidableEq, Repr

/-- An all-empty course record, used to build concrete test inputs. -/
def blankCourse : Course :=
  { courseCode := "", courseName := "", credits := 0, tags := [], gpa := none,
    subject := "", term := "", eligibleGrades := [], prerequisite := "",
    corequisite := "", enrollmentNotes := "", courseDescription := "",
    schools := [] }

/-! ### School-name canonicalizer (`migrate-schools-to-district`) -/

/-- `normalizeSchoolName`: remove all whitespace, lowercase. -/
def normalizeSchoolName (name : String) : String :=
  ⟨lcLower (name.data.filter (fun c => !isWsChar c))⟩

/-- Replace the first occurrence of `m` in the list by `sch`
(JS `indexOf` + index assignment). -/
def replaceFirstOcc : List String → String → String → List String
  | [], _, _ => []
  | a :: as, m, sch =>
    if a == m then sch :: as else a :: replaceFirstOcc as m sch

/-- One iteration of the schools-merge loop of `migrate-schools-to-district`
(dom.ts): find a normalized match; if none, append; if the incoming name is
better formatted (has a space where the match does not), replace the match. -/
def mergeOneSchool (acc : List String) (sch : String) : List String :=
  match acc.find? (fun e => normalizeSchoolName e == normalizeSchoolName sch) with
  | none => acc ++ [sch]
  | some m =>
    if strHasSpace sch && !strHasSpace m then replaceFirstOcc acc m sch else acc

/-- The full schools-merge loop: fold every incoming school into the existing
list. -/
def mergeSchoolsLoop (existing incoming : List String) : List String :=
  incoming.foldl mergeOneSchool existing

/-- The per-course seeding step of the merger: add the contributing source's
school name unless an equivalent name is already present. -/
def seedSchool (schools : List String) (schoolName : String) : List String :=
  if schoolName ≠ "" &&
      !(schools.any (fun sch => normalizeSchoolName sch == normalizeSchoolName schoolName)) then
    schools ++ [schoolName]
  else
    schools

/-! ### Catalog merger (`migrate-schools-to-district`, duplicate-code branch) -/

/-- Scalar-field merge of the duplicate-`courseCode` branch:
`if (!existing.f && course.f) existing.f = course.f`. -/
def mergeScalar (e i : String) : String :=
  if e = "" ∧ i ≠ "" then i else e

/-- Merge an incoming course into the existing entry with the same
`courseCode` (dom.ts, `migrate-schools-to-district` merge loop): the seven
scalar text fields are filled only when empty, the schools lists are merged
with normalized comparison, and all other fields keep the existing values. -/
def mergeCourse (existing incoming : Course) : Course :=
  { existing with
    courseName := mergeScalar existing.courseName incoming.courseName
    subject := mergeScalar existing.subject incoming.subject
    term := mergeScalar existing.term incoming.term
    prerequisite := mergeScalar existing.prerequisite incoming.prerequisite
    corequisite := mergeScalar existing.corequisite incoming.corequisite
    enrollmentNotes := mergeScalar existing.enrollmentNotes incoming.enrollmentNotes
    courseDescription := mergeScalar existing.courseDescription incoming.courseDescription
    schools := mergeSchoolsLoop existing.schools incoming.schools }

/-! ### Semester-pair collapser (`collapse-ab` migration) -/

/-- Merge two string arrays with deduplication (`mergeArrays`). -/
def mergeArrays (arr1 arr2 : List String) : List String :=
  arr2.foldl (fun result item =>
    if result.contains item then result else result ++ [item]) arr1

/-- Merge two school arrays with normalized comparison (`mergeSchools` of the
collapse migration: append-only, no replacement). -/
def mergeSchools (schools1 schools2 : List String) : List String :=
  schools2.foldl (fun result school =>
    if result.any (fun s => normalizeSchoolName s == normalizeSchoolName school) then
      result
    else
      result ++ [school]) schools1

/-- `isEmpty` of the collapse migration: empty, whitespace-only or `"n/a"`. -/
def isEmpty (value : String) : Bool :=
  value = "" || strTrim value = "" || strLower value = "n/a"

/-- `coalesce`: first non-empty value, favouring the first argument. -/
def coalesce (value1 value2 : String) : String :=
  if isEmpty value1 then value2 else value1

/-- Character class `[AB]` under the `/i` flag. -/
def isABChar (c : Char) : Bool :=
  c = 'A' || c = 'B' || c = 'a' || c = 'b'

/-- The optional capture group `(\s*\(.*\))` anchored at end of string:
whitespace, then a parenthesized run of non-newline characters reaching the
end of the string. -/
def parenGroupOk (l : List Char) : Bool :=
  (l.dropWhile isWsChar).head? == some '(' &&
  (l.dropWhile isWsChar).getLast? == some ')' &&
  decide (2 ≤ (l.dropWhile isWsChar).length) &&
  ((l.dropWhile isWsChar).drop 1).dropLast.all isDotChar

/-- After the mandatory first whitespace character of `/\s+[AB](\s*\(.*\))?$/i`:
consume further whitespace, then the `A`/`B` letter, then either end of string
or the parenthetical group.  Returns the capture-group text on success. -/
def p1AfterWs : List Char → Option (List Char)
  | [] => none
  | c :: rest =>
    if isWsChar c then p1AfterWs rest
    else if isABChar c then
      if rest = [] then some []
      else if parenGroupOk rest then some rest else none
    else none

/-- First replace of `stripABSuffix`: leftmost match of
`/\s+[AB](\s*\(.*\))?$/i` replaced by its capture group. -/
def p1Replace : List Char → List Char
  | [] => []
  | c :: rest =>
    match if isWsChar c then p1AfterWs rest else none with
    | some g => g
    | none => c :: p1Replace rest

/-- Match of `/([0-9A-Za-z])[AB](\s*\(.*\))?$/i` starting at the head of the
list; on success returns the replacement `$1$2` for the whole suffix. -/
def p2MatchAt : List Char → Option (List Char)
  | x :: y :: rest =>
    if x.isAlphanum && isABChar y then
      if rest = [] then some [x]
      else if parenGroupOk rest then some (x :: rest) else none
    else none
  | _ => none

/-- Second replace of `stripABSuffix`: leftmost match of
`/([0-9A-Za-z])[AB](\s*\(.*\))?$/i` replaced by `$1$2`. -/
def p2Replace : List Char → List Char
  | [] => []
  | c :: rest =>
    match p2MatchAt (c :: rest) with
    | some g => g
    | none => c :: p2Replace rest

/-- `stripABSuffix` (collapse migration): the two chained regex replaces
followed by `trim`. -/
def stripABSuffix (courseName : String) : String :=
  ⟨trimL (p2Replace (p1Replace courseName.data))⟩

/-- `consolidatePair`: fuse an A/B pair into one full-year course. -/
def consolidatePair (courseA courseB : Course) (baseCode : String) : Course :=
  { courseCode := baseCode
    courseName := stripABSuffix courseA.courseName
    credits := courseA.credits + courseB.credits
    term := "Semester 1-Semester 2"
    gpa := courseA.gpa
    subject := coalesce courseA.subject courseB.subject
    prerequisite := coalesce courseA.prerequisite courseB.prerequisite
    corequisite := coalesce courseA.corequisite courseB.corequisite
    enrollmentNotes := coalesce courseA.enrollmentNotes courseB.enrollmentNotes
    courseDescription := coalesce courseA.courseDescription courseB.courseDescription
    tags := mergeArrays courseA.tags courseB.tags
    schools := mergeSchools courseA.schools courseB.schools
    eligibleGrades := mergeArrays courseA.eligibleGrades courseB.eligibleGrades }

/-- A base-code group of the collapse migration:
`{ A?: Course; B?: Course; other: Course[] }`. -/
structure ABGroup where
  ga : Option Course
  gb : Option Course
  oth : List Course
deriving DecidableEq, Repr

/-- The JS `Map<string, group>` in insertion order; keys are kept as
character lists. -/
abbrev GroupMap := List (List Char × ABGroup)

def mapHas (m : GroupMap) (k : List Char) : Bool :=
  m.any (fun p => p.1 == k)

def mapGet (m : GroupMap) (k : List Char) : Option ABGroup :=
  (m.find? (fun p => p.1 == k)).map (·.2)

/-- JS `Map.set`: update in place (keeping insertion position) when the key
exists, otherwise append. -/
def mapSet (m : GroupMap) (k : List Char) (v : ABGroup) : GroupMap :=
  if mapHas m k then m.map (fun p => if p.1 == k then (k, v) else p)
  else m ++ [(k, v)]

/-- `code.match(/^(.+)([AB])$/)`: a non-empty base followed by a trailing
(case-sensitive) `A` or `B`. -/
def abMatch (code : String) : Option (List Char × Char) :=
  match code.data.getLast? with
  | some c =>
    if (c = 'A' ∨ c = 'B') ∧ 2 ≤ code.data.length then
      some (code.data.dropLast, c)
    else
      none
  | none => none

/-- The sentinel used to key non-A/B courses in the group map. -/
def noSuffixTag : List Char := "__no_suffix_".data

/-- One iteration of the grouping loop of the collapse migration. -/
def addCourse (m : GroupMap) (c : Course) : GroupMap :=
  match abMatch c.courseCode with
  | some (base, sfx) =>
    let m1 := if mapHas m base then m else mapSet m base ⟨none, none, []⟩
    let g := (mapGet m1 base).getD ⟨none, none, []⟩
    if sfx = 'A' then
      match g.ga with
      | some _ => mapSet m1 base ⟨g.ga, g.gb, g.oth ++ [c]⟩
      | none => mapSet m1 base ⟨some c, g.gb, g.oth⟩
    else
      match g.gb with
      | some _ => mapSet m1 base ⟨g.ga, g.gb, g.oth ++ [c]⟩
      | none => mapSet m1 base ⟨g.ga, some c, g.oth⟩
  | none => mapSet m (noSuffixTag ++ c.courseCode.data) ⟨none, none, [c]⟩

/-- Cosmetic name strip applied to pass-through entries. -/
def stripNameCourse (c : Course) : Course :=
  { c with courseName := stripABSuffix c.courseName }

/-- Output entries contributed by one base-code group. -/
def groupOut (k : List Char) (g : ABGroup) : List Course :=
  if startsWithL noSuffixTag k then
    g.oth.map stripNameCourse
  else
    match g.ga, g.gb with
    | some a, some b => consolidatePair a b ⟨k⟩ :: g.oth.map stripNameCourse
    | ga, gb =>
      (ga.map stripNameCourse).toList ++ (gb.map stripNameCourse).toList ++
        g.oth.map stripNameCourse

/-- Group the whole catalog by base code. -/
def collapseGroups (cs : List Course) : GroupMap :=
  cs.foldl addCourse []

/-- The complete collapse migration: group, then rebuild the course list in
group-insertion order. -/
def collapseCatalog (cs : List Course) : List Course :=
  (collapseGroups cs).foldr (fun p acc => groupOut p.1 p.2 ++ acc) []

/-- A group holding a complete A/B pair (counted as collapsed). -/
def isCompletePair (p : List Char × ABGroup) : Bool :=
  !startsWithL noSuffixTag p.1 && p.2.ga.isSome && p.2.gb.isSome

/-- Number of fully collapsed pairs of a run of the migration. -/
def numCollapsedPairs (cs : List Course) : Nat :=
  ((collapseGroups cs).filter isCompletePair).length

/-! ### GPA pass (`migrate-gpa.ts`) -/

/-- The GPA migration: assign `calculateGPA(courseName, tags)` to every course
whose `gpa` field is absent; courses that already carry a `gpa` are skipped. -/
def migrateGPA (courses : List Course) : List Course :=
  courses.map (fun course =>
    match course.gpa with
    | some _ => course
    | none => { course with gpa := some (calculateGPA course.courseName course.tags) })

/-! ### Claims about normalized school deduplication (C8) -/

/-- Boolean statement that a schools list has no two entries equivalent under
normalized-name comparison. -/
def nodupNorm : List String → Bool
  | [] => true
  | a :: as =>
    as.all (fun b => normalizeSchoolName a != normalizeSchoolName b) && nodupNorm as

/-! ### Claims about the cosmetic name strip (C10) -/

/-- The head of the list is not whitespace (or the list is empty). -/
def headOkW : List Char → Bool
  | [] => true
  | a :: _ => !isWsChar a

/-- All courses stored in a group come from the given catalog. -/
def gMemOK (cs : List Course) (g : ABGroup) : Prop :=
  (∀ a, g.ga = some a → a ∈ cs) ∧ (∀ b, g.gb = some b → b ∈ cs) ∧
  (∀ o ∈ g.oth, o ∈ cs)

/-! ### Claims about the collapse output cardinality (C7) -/

/-- 1 for a filled slot, 0 for an empty one. -/
def optCount : Option Course → Nat
  | some _ => 1
  | none => 0

/-- Weight of a group: number of stored courses. -/
def gwt (g : ABGroup) : Nat :=
  optCount g.ga + optCount g.gb + g.oth.length

/-- Total number of courses stored in a group map. -/
def mapWt (m : GroupMap) : Nat := (m.map (fun p => gwt p.2)).sum

/-- Key bookkeeping of the grouping loop: every sentinel-prefixed key holds no
A/B member and records the code of a previously processed non-A/B course. -/
def keysOk (m : GroupMap) (seen : List (List Char)) : Prop :=
  ∀ p ∈ m, startsWithL noSuffixTag p.1 = true →
    p.2.ga = none ∧ p.2.gb = none ∧ ∃ cd ∈ seen, p.1 = noSuffixTag ++ cd

/-! ### Prerequisite resolver (`migrate-prerequisites`) -/

/-- Case-insensitive prefix test (JS regex `/…/i` on a literal). -/
def startsWithCI : List Char → List Char → Bool
  | [], _ => true
  | _ :: _, [] => false
  | a :: ps, b :: ls => a.toLower == b.toLower && startsWithCI ps ls

/-- Regex `^\d+$`. -/
def allDigits (l : List Char) : Bool :=
  l ≠ [] && l.all Char.isDigit

/-- Regex `^[IVX]+$/i`. -/
def allRoman (l : List Char) : Bool :=
  l ≠ [] && l.all (fun c =>
    c = 'I' || c = 'V' || c = 'X' || c = 'i' || c = 'v' || c = 'x')

/-- Global case-insensitive replace of a literal substring
(JS `replace(/sub/gi, rep)`); the fuel argument is the input length. -/
def replAllCI (sub rep : List Char) : Nat → List Char → List Char
  | 0, l => l
  | _ + 1, [] => []
  | fuel + 1, c :: rest =>
    if startsWithCI sub (c :: rest) then
      rep ++ replAllCI sub rep fuel (rest.drop (sub.length - 1))
    else
      c :: replAllCI sub rep fuel rest

/-- `fixTypos`: caclulus → calculus, amination → animation. -/
def fixTypos (l : List Char) : List Char :=
  let l1 := replAllCI "caclulus".data "calculus".data l.length l
  replAllCI "amination".data "animation".data l1.length l1

/-- Regex word character `\w`. -/
def isWordChar (c : Char) : Bool := c.isAlphanum || c = '_'

/-- Global replace of `\bW\b` for a word `W` (a maximal word-character run
equal to `W` is replaced). -/
def replWordRuns (w rep : List Char) : Nat → List Char → List Char
  | 0, l => l
  | _ + 1, [] => []
  | fuel + 1, c :: rest =>
    if isWordChar c then
      (if (c :: rest).takeWhile isWordChar == w then rep
       else (c :: rest).takeWhile isWordChar) ++
        replWordRuns w rep fuel ((c :: rest).dropWhile isWordChar)
    else
      c :: replWordRuns w rep fuel rest

/-- Global replace of `/\s*\(KAP\)/gi` by `" KAP"`. -/
def kapRepl : Nat → List Char → List Char
  | 0, l => l
  | _ + 1, [] => []
  | fuel + 1, c :: rest =>
    if startsWithCI "(kap)".data ((c :: rest).dropWhile isWsChar) then
      " KAP".data ++ kapRepl fuel (((c :: rest).dropWhile isWsChar).drop 5)
    else
      c :: kapRepl fuel rest

/-- For the lazy group `\(.*?\)`: after an opening parenthesis, the rest of
the input after the first closing parenthesis reachable without crossing a
line terminator. -/
def findCloseNoNl : List Char → Option (List Char)
  | [] => none
  | c :: rest =>
    if c = ')' then some rest
    else if c = '\n' || c = '\r' then none
    else findCloseNoNl rest

/-- Global removal of `/\s*\(.*?\)/g`. -/
def parenRemove : Nat → List Char → List Char
  | 0, l => l
  | _ + 1, [] => []
  | fuel + 1, c :: rest =>
    match
      (match (c :: rest).dropWhile isWsChar with
       | '(' :: r2 => findCloseNoNl r2
       | _ => none) with
    | some after => parenRemove fuel after
    | none => c :: parenRemove fuel rest

/-- `^\*` removal. -/
def dropLeadStar : List Char → List Char
  | '*' :: rest => rest
  | l => l

/-- No line terminator anywhere (`.*$` reachability). -/
def noNl (l : List Char) : Bool :=
  l.all (fun c => !(c = '\n' || c = '\r'))

/-- A match of `/\s*-\s*(VirSup|VirInstDay|SummerVir).*$/i` starting here. -/
def virMatchAt (l : List Char) : Bool :=
  match l.dropWhile isWsChar with
  | '-' :: r2 =>
    (startsWithCI "virsup".data (r2.dropWhile isWsChar) &&
      noNl ((r2.dropWhile isWsChar).drop 6)) ||
    (startsWithCI "virinstday".data (r2.dropWhile isWsChar) &&
      noNl ((r2.dropWhile isWsChar).drop 10)) ||
    (startsWithCI "summervir".data (r2.dropWhile isWsChar) &&
      noNl ((r2.dropWhile isWsChar).drop 9))
  | _ => false

/-- Removal of the leftmost virtual-suffix match (everything from the match
start to the end of the string is dropped). -/
def virCut : List Char → List Char
  | [] => []
  | c :: rest => if virMatchAt (c :: rest) then [] else c :: virCut rest

/-- A match of `/\s+[AB]\s*$/i` starting here. -/
def abTailMatch (l : List Char) : Bool :=
  match l with
  | c :: _ =>
    isWsChar c &&
      (match l.dropWhile isWsChar with
       | x :: r2 => isABChar x && r2.all isWsChar
       | [] => false)
  | [] => false

/-- Removal of a trailing `\s+[AB]\s*` suffix. -/
def abTailCut : List Char → List Char
  | [] => []
  | c :: rest => if abTailMatch (c :: rest) then [] else c :: abTailCut rest

/-- Global replace of `/\s*&\s*/g` by `" and "`. -/
def ampRepl : Nat → List Char → List Char
  | 0, l => l
  | _ + 1, [] => []
  | fuel + 1, c :: rest =>
    match (c :: rest).dropWhile isWsChar with
    | '&' :: r2 => " and ".data ++ ampRepl fuel (r2.dropWhile isWsChar)
    | _ => c :: ampRepl fuel rest

/-- Collapse whitespace runs to single spaces (`/\s+/g → " "`). -/
def collapseWsAux : List Char → Bool → List Char
  | [], _ => []
  | c :: rest, prevWs =>
    if isWsChar c then
      (if prevWs then collapseWsAux rest true else ' ' :: collapseWsAux rest true)
    else
      c :: collapseWsAux rest false

/-- `normalizeForMatching` of the prerequisites migration: typo fixes,
standalone Roman numerals to Arabic, `(KAP)` retention, parenthetical
removal, leading asterisk and virtual/semester suffix stripping, `&` to
`and`, whitespace collapse, lowercasing. -/
def normalizeForMatching (name : String) : String :=
  let n0 := trimL name.data
  let n1 := fixTypos n0
  let n2 := replWordRuns "I".data "1".data n1.length n1
  let n3 := replWordRuns "II".data "2".data n2.length n2
  let n4 := replWordRuns "III".data "3".data n3.length n3
  let n5 := replWordRuns "IV".data "4".data n4.length n4
  let n6 := kapRepl n5.length n5
  let n7 := parenRemove n6.length n6
  let n8 := dropLeadStar n7
  let n9 := virCut n8
  let n10 := abTailCut n9
  let n11 := ampRepl n10.length n10
  let n12 := collapseWsAux n11 false
  ⟨lcLower (trimL n12)⟩

/-- Name→code index: first code seen per distinct (trimmed, non-empty)
course name wins. -/
def buildNameToCode (courses : List Course) : List (String × String) :=
  courses.foldl (fun m course =>
    let courseName := strTrim course.courseName
    let courseCode := strTrim course.courseCode
    if courseName = "" ∨ courseCode = "" then m
    else if m.any (fun p => p.1 == courseName) then m
    else m ++ [(courseName, courseCode)]) []

/-- The set of all (trimmed, non-empty) course codes. -/
def allCourseCodes (courses : List Course) : List String :=
  courses.foldl (fun s course =>
    let courseCode := strTrim course.courseCode
    if courseCode = "" then s
    else if s.contains courseCode then s
    else s ++ [courseCode]) []

/-- `isCourseCode`: membership in the catalog's code set. -/
def isCourseCode (courses : List Course) (code : String) : Bool :=
  (allCourseCodes courses).contains code

/-- First-success chaining of the resolver's stages. -/
def ifNone (o : Option String) (f : Unit → Option String) : Option String :=
  match o with
  | some c => some c
  | none => f ()

/-- The abbreviation-expansion table, in source order. -/
def abbreviationMap : List (String × String) :=
  [("asl", "american sign language"),
   ("engl", "english"),
   ("advanced placement language and composition", "ap english language"),
   ("ap language and composition", "ap english language"),
   ("cisco network engineering", "network engineering"),
   ("network engineering i/lab", "network engineering 1"),
   ("network engineering i lab", "network engineering 1")]

/-- Replace the first occurrence of a literal substring (JS
`replace(sub, rep)` with a string pattern). -/
def replFirstSub (sub rep : List Char) : List Char → List Char
  | [] => []
  | c :: rest =>
    if startsWithL sub (c :: rest) then rep ++ (c :: rest).drop sub.length
    else c :: replFirstSub sub rep rest

/-- Apply the first applicable abbreviation expansion, then stop. -/
def applyAbbrev : List (String × String) → List Char → List Char
  | [], e => e
  | (abbr, full) :: rest, e =>
    if containsSub abbr.data e then replFirstSub abbr.data full.data e
    else applyAbbrev rest e

/-- Global replace of `/\/\s*/g` by a space. -/
def slashWs : Nat → List Char → List Char
  | 0, l => l
  | _ + 1, [] => []
  | fuel + 1, c :: rest =>
    if c = '/' then ' ' :: slashWs fuel (rest.dropWhile isWsChar)
    else c :: slashWs fuel rest

/-- Split on whitespace runs (for the word-overlap heuristic). -/
def splitWsF : Nat → List Char → List (List Char)
  | 0, _ => []
  | _ + 1, [] => []
  | fuel + 1, c :: rest =>
    if isWsChar c then splitWsF fuel rest
    else
      (c :: rest).takeWhile (fun x => !isWsChar x) ::
        splitWsF fuel ((c :: rest).dropWhile (fun x => !isWsChar x))

/-- Greedy-with-backtracking split for `^([A-Za-z\s]+)\s+[0-9IVX]+/i`:
longest group-1 first. -/
def baseSplitAux (s : List Char) : Nat → Option (List Char)
  | 0 => none
  | k + 1 =>
    if decide (((s.drop (k + 1)).takeWhile isWsChar) ≠ []) &&
        (match ((s.drop (k + 1)).dropWhile isWsChar).head? with
         | some x => x.isDigit || x = 'I' || x = 'V' || x = 'X' ||
             x = 'i' || x = 'v' || x = 'x'
         | none => false) then
      some (s.take (k + 1))
    else
      baseSplitAux s k

/-- Group 1 of `trimmed.match(/^([A-Za-z\s]+)\s+[0-9IVX]+/i)`. -/
def baseNameGroup (s : List Char) : Option (List Char) :=
  baseSplitAux s ((s.takeWhile (fun c => c.isAlpha || isWsChar c)).length)

/-- The per-entry test of the embedded/substring matching stage. -/
def stage12hit (name : String) (lowerTrimmed normalizedPrereq expandedPrereq : String) :
    Bool :=
  let lowerName := strLower name
  let normalizedName := normalizeForMatching name
  (containsSub ('(' :: lowerTrimmed.data ++ [')']) lowerName.data ||
   containsSub ('(' :: normalizedPrereq.data ++ [')']) lowerName.data ||
   containsSub ('(' :: expandedPrereq.data ++ [')']) lowerName.data) ||
  ((containsSub normalizedPrereq.data normalizedName.data ||
    containsSub expandedPrereq.data normalizedName.data) &&
   (decide (3 ≤ normalizedPrereq.length) || decide (3 ≤ expandedPrereq.length))) ||
  ((containsSub lowerTrimmed.data lowerName.data ||
    containsSub expandedPrereq.data lowerName.data) &&
   (decide (3 ≤ lowerTrimmed.length) || decide (3 ≤ expandedPrereq.length)))

/-- The body of `findCourseCode` after the `corequisite:` cleanup. -/
def findCourseCodeCore (courses : List Course) (trimmed0 : String) : Option String :=
  if allDigits trimmed0.data || allRoman trimmed0.data then none
  else if isCourseCode courses trimmed0 then some trimmed0
  else
    let nameToCodeMap := buildNameToCode courses
    let trimmed : String := ⟨fixTypos trimmed0.data⟩
    let normalizedPrereq := normalizeForMatching trimmed
    let lowerTrimmed := strLower trimmed
    ifNone ((nameToCodeMap.find? (fun p => p.1 == trimmed)).map (·.2)) fun _ =>
    ifNone ((nameToCodeMap.find? (fun p => strLower p.1 == lowerTrimmed)).map (·.2))
      fun _ =>
    ifNone ((nameToCodeMap.find? (fun p =>
        normalizeForMatching p.1 == normalizedPrereq)).map (·.2)) fun _ =>
    ifNone ((nameToCodeMap.find? (fun p =>
        strStartsWith (normalizeForMatching p.1) normalizedPrereq ||
        strStartsWith normalizedPrereq (normalizeForMatching p.1))).map (·.2)) fun _ =>
    let e0 := replAllCI "/lab".data [] normalizedPrereq.data.length normalizedPrereq.data
    let e1 := slashWs e0.length e0
    let e2 := applyAbbrev abbreviationMap e1
    let e3 := if containsSub "presentation".data normalizedPrereq.data &&
        containsSub "1".data normalizedPrereq.data then
        "engineering design and presentation".data
      else e2
    let expandedPrereq : String := ⟨e3⟩
    ifNone (if containsSub "principles".data normalizedPrereq.data &&
        containsSub "arts".data normalizedPrereq.data &&
        (containsSub "audio".data normalizedPrereq.data ||
         containsSub "video".data normalizedPrereq.data) then
        (nameToCodeMap.find? (fun p =>
          containsSub "arts".data (normalizeForMatching p.1).data &&
          (containsSub "audio".data (normalizeForMatching p.1).data ||
           containsSub "video".data (normalizeForMatching p.1).data))).map (·.2)
      else none) fun _ =>
    ifNone ((nameToCodeMap.find? (fun p =>
        stage12hit p.1 lowerTrimmed normalizedPrereq expandedPrereq)).map (·.2))
      fun _ =>
    ifNone (match baseNameGroup trimmed.data with
      | some g1 =>
        (nameToCodeMap.find? (fun p =>
          strStartsWith (normalizeForMatching p.1) (normalizeForMatching ⟨trimL g1⟩) ||
          strContains (normalizeForMatching p.1)
            (normalizeForMatching ⟨trimL g1⟩))).map (·.2)
      | none => none) fun _ =>
    ifNone (if ((splitWsF normalizedPrereq.data.length normalizedPrereq.data).filter
          (fun w => 2 < w.length)) ≠ [] then
        (nameToCodeMap.find? (fun p =>
          ((splitWsF normalizedPrereq.data.length normalizedPrereq.data).filter
            (fun w => 2 < w.length)).all
              (fun w => containsSub w (normalizeForMatching p.1).data) &&
          decide (2 ≤ ((splitWsF normalizedPrereq.data.length
            normalizedPrereq.data).filter (fun w => 2 < w.length)).length))).map (·.2)
      else none) fun _ =>
    ifNone ((nameToCodeMap.find? (fun p =>
        strStartsWith p.1 trimmed || strStartsWith trimmed p.1)).map (·.2)) fun _ =>
    ((nameToCodeMap.find? (fun p =>
        strStartsWith (strLower p.1) lowerTrimmed ||
        strStartsWith lowerTrimmed (strLower p.1))).map (·.2))

/-- `findCourseCode` of the prerequisites migration. -/
def findCourseCode (courses : List Course) (prerequisite : String) : Option String :=
  if prerequisite = "" ∨ strTrim prerequisite = "" ∨ strLower prerequisite = "n/a" then
    none
  else
    let trimmed0 := strTrim prerequisite
    if strStartsWith (strLower trimmed0) "corequisite:" then
      let t2 : String := ⟨trimL ((trimmed0.data.drop 12).dropWhile isWsChar)⟩
      if strLower t2 = "n/a" ∨ t2 = "" then none
      else findCourseCodeCore courses t2
    else findCourseCodeCore courses trimmed0

/-- A match of the `or` clause separator `/\s+or\s+/i` starting at the head of
the list; on success returns the rest after the (greedy) match. -/
def orSepAt (l : List Char) : Option (List Char) :=
  match l with
  | c :: _ =>
    if isWsChar c then
      (if startsWithCI "or".data (l.dropWhile isWsChar) then
        (match (l.dropWhile isWsChar).drop 2 with
         | d :: rest2 =>
           if isWsChar d then some ((d :: rest2).dropWhile isWsChar) else none
         | [] => none)
       else none)
    else none
  | [] => none

/-- Split on `/\s+or\s+/i` (segments between matches, in order). -/
def orSplitAux : Nat → List Char → List Char → List (List Char)
  | 0, acc, _ => [acc.reverse]
  | _ + 1, acc, [] => [acc.reverse]
  | fuel + 1, acc, c :: rest =>
    match orSepAt (c :: rest) with
    | some after => acc.reverse :: orSplitAux fuel [] after
    | none => orSplitAux fuel (c :: acc) rest

def orSplit (l : List Char) : List (List Char) := orSplitAux l.length [] l

/-- `orPattern.test`. -/
def orTest : List Char → Bool
  | [] => false
  | c :: rest => (orSepAt (c :: rest)).isSome || orTest rest

/-- The `&` alternative of the `and` separator, after the leading `\s+`. -/
def andAmp (r : List Char) : Option (List Char) :=
  match r with
  | '&' :: r2 =>
    (match r2 with
     | d :: rest2 =>
       if isWsChar d then some ((d :: rest2).dropWhile isWsChar) else none
     | [] => none)
  | _ => none

/-- A match of `/\s+(and|&)\s+/i` starting at the head of the list; on success
returns the rest after the match. -/
def andSepAt (l : List Char) : Option (List Char) :=
  match l with
  | c :: _ =>
    if isWsChar c then
      (if startsWithCI "and".data (l.dropWhile isWsChar) then
        (match (l.dropWhile isWsChar).drop 3 with
         | d :: rest2 =>
           if isWsChar d then some ((d :: rest2).dropWhile isWsChar)
           else andAmp (l.dropWhile isWsChar)
         | [] => andAmp (l.dropWhile isWsChar))
       else andAmp (l.dropWhile isWsChar))
    else none
  | [] => none

/-- Split on `/\s+(and|&)\s+/i` (segments between matches, in order). -/
def andSplitAux : Nat → List Char → List Char → List (List Char)
  | 0, acc, _ => [acc.reverse]
  | _ + 1, acc, [] => [acc.reverse]
  | fuel + 1, acc, c :: rest =>
    match andSepAt (c :: rest) with
    | some after => acc.reverse :: andSplitAux fuel [] after
    | none => andSplitAux fuel (c :: acc) rest

def andSplit (l : List Char) : List (List Char) := andSplitAux l.length [] l

/-- `andPattern.test`. -/
def andTest : List Char → Bool
  | [] => false
  | c :: rest => (andSepAt (c :: rest)).isSome || andTest rest

/-- The filter `/^(and|&)$/i` applied to split parts. -/
def isAndTok (p : List Char) : Bool :=
  lcLower p == "and".data || p == "&".data

/-- The trimmed, non-empty parts of the `or` split. -/
def orParts (s : String) : List String :=
  (((orSplit s.data).map trimL).filter (fun p => p ≠ [])).map
    (fun p => (⟨p⟩ : String))

/-- The trimmed, non-empty, non-separator parts of the `and` split. -/
def andParts (s : String) : List String :=
  (((andSplit s.data).map trimL).filter
    (fun p => decide (p ≠ []) && !isAndTok p)).map (fun p => (⟨p⟩ : String))

/-- `nonCoursePattern` branch pieces: `\s*(of|in)` after a credit word. -/
def nctOfIn (r : List Char) : Bool :=
  startsWithCI "of".data (r.dropWhile isWsChar) ||
  startsWithCI "in".data (r.dropWhile isWsChar)

/-- `\d+\s*(credit|credits|hours?)\s*(of|in)` matching at this position. -/
def nctDigitsAt (l : List Char) : Bool :=
  match l with
  | c :: _ =>
    c.isDigit &&
      (let r := (l.dropWhile Char.isDigit).dropWhile isWsChar
       (startsWithCI "credits".data r && nctOfIn (r.drop 7)) ||
       (startsWithCI "credit".data r && nctOfIn (r.drop 6)) ||
       (startsWithCI "hours".data r && nctOfIn (r.drop 5)) ||
       (startsWithCI "hour".data r && nctOfIn (r.drop 4)))
  | [] => false

/-- Head of the list is whitespace. -/
def hasWsHead : List Char → Bool
  | c :: _ => isWsChar c
  | [] => false

/-- `of\s+(high\s+school|college)` matching at this position. -/
def nctOfBranchAt (l : List Char) : Bool :=
  startsWithCI "of".data l &&
    (hasWsHead (l.drop 2) &&
      (startsWithCI "college".data ((l.drop 2).dropWhile isWsChar) ||
       (startsWithCI "high".data ((l.drop 2).dropWhile isWsChar) &&
        hasWsHead (((l.drop 2).dropWhile isWsChar).drop 4) &&
        startsWithCI "school".data
          ((((l.drop 2).dropWhile isWsChar).drop 4).dropWhile isWsChar))))

/-- `nonCoursePattern.test`: a credit-hour or grade-level phrase occurs
somewhere in the clause. -/
def nonCourseTest : List Char → Bool
  | [] => false
  | c :: rest => nctDigitsAt (c :: rest) || nctOfBranchAt (c :: rest) ||
      nonCourseTest rest

/-- Regex `/^[A-Z0-9]+$/`: the "code-shaped" test of the `and` branch. -/
def codeShaped (s : String) : Bool :=
  s.data ≠ [] && s.data.all (fun c => c.isUpper || c.isDigit)

/-- `parts.join(sep)`. -/
def joinSep (sep : String) : List String → String
  | [] => ""
  | [x] => x
  | x :: xs => x ++ sep ++ joinSep sep xs

/-- Resolution of one clause of the `and` branch: clauses with non-course
qualifying text are kept verbatim, others go through `findCourseCode` with
the original text as fallback. -/
def resolveAndClause (courses : List Course) (p : String) : String :=
  if nonCourseTest p.data then p else (findCourseCode courses p).getD p

/-- The simple (no-connective) branch of `convertPrerequisite`. -/
def convertSimple (courses : List Course) (trimmed : String) : String :=
  (findCourseCode courses trimmed).getD trimmed

/-- The `and`/`&` branch of `convertPrerequisite`. -/
def convertAnd (courses : List Course) (trimmed : String) : String :=
  if andTest trimmed.data then
    (if andParts trimmed ≠ [] then
      (if ((andParts trimmed).map (resolveAndClause courses)).all codeShaped &&
          !((andParts trimmed).any (fun q => nonCourseTest q.data)) then
        joinSep " or " ((andParts trimmed).map (resolveAndClause courses))
      else
        joinSep " and " ((andParts trimmed).map (resolveAndClause courses)))
     else convertSimple courses trimmed)
  else convertSimple courses trimmed

/-- The `or` branch of `convertPrerequisite`, falling through to the `and`
branch when it produces no parts. -/
def convertPrereqOfTrimmed (courses : List Course) (trimmed : String) : String :=
  if orTest trimmed.data then
    (if ((orParts trimmed).filter
        (fun p => !(allDigits p.data || allRoman p.data))) ≠ [] then
      joinSep " or " (((orParts trimmed).filter
        (fun p => !(allDigits p.data || allRoman p.data))).map
          (fun p => (findCourseCode courses p).getD p))
     else convertAnd courses trimmed)
  else convertAnd courses trimmed

/-- `convertPrerequisite` of the prerequisites migration. -/
def convertPrerequisite (courses : List Course) (prerequisite : String) : String :=
  if prerequisite = "" ∨ strTrim prerequisite = "" ∨ strLower prerequisite = "n/a" then
    "n/a"
  else
    let trimmed0 := strTrim prerequisite
    if strStartsWith (strLower trimmed0) "corequisite:" then
      (let t2 : String := ⟨trimL ((trimmed0.data.drop 12).dropWhile isWsChar)⟩
       if strLower t2 = "n/a" ∨ t2 = "" then "n/a"
       else convertPrereqOfTrimmed courses t2)
    else convertPrereqOfTrimmed courses trimmed0

/-- Concrete one-course catalog (a code that matches nothing) used as a shared
counterexample catalog for the resolver claims. -/
def catX : List Course := [{ blankCourse with courseCode := "X1", courseName := "zq" }]

/-- Concrete one-course catalog with an ordinary alphanumeric code. -/
def catM : List Course := [{ blankCourse with courseCode := "MATH1", courseName := "Algebra 1" }]

/-- Concrete one-course catalog whose courseCode is purely numeric. -/
def catNum : List Course := [{ blankCourse with courseCode := "0100" }]

/-! ### Helper lemmas -/

theorem mergeScalar_eq (e i : String) :
    mergeScalar e i = if e ≠ "" then e else i := by
  unfold mergeScalar
  by_cases he : e = "" <;> by_cases hi : i = "" <;> simp [he, hi]

/-! ### Claims about the catalog merger's scalar and array fields -/

/-- C1 (amended): in the catalog merger's duplicate-`courseCode` branch, each
scalar text field of the result equals the existing value whenever that value
is non-empty — including the sentinel `"n/a"`, which is kept — and equals the
incoming value only when the existing value is the empty string. -/
theorem c1_merge_scalar_fields (existing incoming : Course) :
    (mergeCourse existing incoming).courseName =
      (if existing.courseName ≠ "" then existing.courseName else incoming.courseName) ∧
    (mergeCourse existing incoming).subject =
      (if existing.subject ≠ "" then existing.subject else incoming.subject) ∧
    (mergeCourse existing incoming).term =
      (if existing.term ≠ "" then existing.term else incoming.term) ∧
    (mergeCourse existing incoming).prerequisite =
      (if existing.prerequisite ≠ "" then existing.prerequisite else incoming.prerequisite) ∧
    (mergeCourse existing incoming).corequisite =
      (if existing.corequisite ≠ "" then existing.corequisite else incoming.corequisite) ∧
    (mergeCourse existing incoming).enrollmentNotes =
      (if existing.enrollmentNotes ≠ "" then existing.enrollmentNotes
       else incoming.enrollmentNotes) ∧
    (mergeCourse existing incoming).courseDescription =
      (if existing.courseDescription ≠ "" then existing.courseDescription
       else incoming.courseDescription) := by
  refine ⟨?_, ?_, ?_, ?_, ?_, ?_, ?_⟩ <;> simp [mergeCourse, mergeScalar_eq]

/-- C1 counterexample: the merge loop keeps an existing `"n/a"` scalar value
even though the incoming source offers a real value, contradicting the
"non-empty/non-n/a" rule of the claim (which would require `"Semester 1"`). -/
theorem c1_counterexample :
    (mergeCourse
        { blankCourse with
          courseCode := "0100"
          term := "n/a" }
        { blankCourse with
          courseCode := "0100"
          term := "Semester 1" }).term = "n/a" ∧
    ("n/a" : String) ≠ "" ∧ ("n/a" : String) ≠ "Semester 1" := by
  refine ⟨rfl, by decide, by decide⟩

/-- C2 (amended): the duplicate-`courseCode` branch of the catalog merger does
not combine `tags` or `eligibleGrades` at all — the result always keeps the
existing entry's sequences unchanged, and incoming items are dropped. -/
theorem c2_merge_arrays_amended (existing incoming : Course) :
    (mergeCourse existing incoming).tags = existing.tags ∧
    (mergeCourse existing incoming).eligibleGrades = existing.eligibleGrades :=
  ⟨rfl, rfl⟩

/-- C2 counterexample: an incoming tag `"AP"` and an incoming grade `"9th"`
are lost by the merge even though the set-union required by the claim would
contain them. -/
theorem c2_counterexample :
    "AP" ∈ ({ blankCourse with
        courseCode := "0200"
        tags := ["AP"]
        eligibleGrades := ["9th"] } : Course).tags ∧
    "AP" ∉ (mergeCourse { blankCourse with courseCode := "0200" }
        { blankCourse with
          courseCode := "0200"
          tags := ["AP"]
          eligibleGrades := ["9th"] }).tags ∧
    "9th" ∉ (mergeCourse { blankCourse with courseCode := "0200" }
        { blankCourse with
          courseCode := "0200"
          tags := ["AP"]
          eligibleGrades := ["9th"] }).eligibleGrades := by
  refine ⟨by decide, by decide, by decide⟩

/-! ### Claims about the GPA classifier and the GPA pass -/

/-- C5: `calculateGPA` is pure and total with range {4.0, 4.5, 5.0} and
evaluates first-match-wins: 5.0 on AP/KAP evidence in the (case-insensitive)
name or tags, otherwise 4.5 on Dual-Credit evidence, otherwise 4.0; the AP
rule strictly precedes the Dual-Credit rule, as the four spec examples show. -/
theorem c5_calculateGPA_characterization :
    (∀ (n : String) (ts : List String),
        calculateGPA n ts = 4 ∨ calculateGPA n ts = 9 / 2 ∨ calculateGPA n ts = 5) ∧
    (∀ (n : String) (ts : List String),
        (strContains (strUpper n) "AP" || strContains (strUpper n) "KAP" ||
          (ts.map strUpper).contains "AP" || (ts.map strUpper).contains "KAP") = true →
        calculateGPA n ts = 5) ∧
    (∀ (n : String) (ts : List String),
        (strContains (strUpper n) "AP" || strContains (strUpper n) "KAP" ||
          (ts.map strUpper).contains "AP" || (ts.map strUpper).contains "KAP") = false →
        (strContains (strUpper n) "DUAL CREDIT" || (ts.map strUpper).contains "DC") = true →
        calculateGPA n ts = 9 / 2) ∧
    (∀ (n : String) (ts : List String),
        (strContains (strUpper n) "AP" || strContains (strUpper n) "KAP" ||
          (ts.map strUpper).contains "AP" || (ts.map strUpper).contains "KAP") = false →
        (strContains (strUpper n) "DUAL CREDIT" || (ts.map strUpper).contains "DC") = false →
        calculateGPA n ts = 4) ∧
    calculateGPA "AP Biology" [] = 5 ∧
    calculateGPA "Biology" ["DC"] = 9 / 2 ∧
    calculateGPA "Biology" [] = 4 ∧
    calculateGPA "AP Dual Credit Seminar" ["DC"] = 5 := by
  have heq : ∀ (n : String) (ts : List String),
      calculateGPA n ts =
        if (strContains (strUpper n) "AP" || strContains (strUpper n) "KAP" ||
            (ts.map strUpper).contains "AP" || (ts.map strUpper).contains "KAP") = true then
          5
        else if (strContains (strUpper n) "DUAL CREDIT" ||
            (ts.map strUpper).contains "DC") = true then
          9 / 2
        else 4 := fun n ts => rfl
  refine ⟨?_, ?_, ?_, ?_, rfl, rfl, rfl, rfl⟩
  · intro n ts
    rw [heq]
    cases h1 : (strContains (strUpper n) "AP" || strContains (strUpper n) "KAP" ||
        (ts.map strUpper).contains "AP" || (ts.map strUpper).contains "KAP") with
    | true => rw [if_pos rfl]; right; right; rfl
    | false =>
      rw [if_neg Bool.false_ne_true]
      cases h2 : (strContains (strUpper n) "DUAL CREDIT" ||
          (ts.map strUpper).contains "DC") with
      | true => rw [if_pos rfl]; right; left; rfl
      | false => rw [if_neg Bool.false_ne_true]; left; rfl
  · intro n ts h
    rw [heq, h, if_pos rfl]
  · intro n ts h1 h2
    rw [heq, h1, h2, if_neg Bool.false_ne_true, if_pos rfl]
  · intro n ts h1 h2
    rw [heq, h1, h2, if_neg Bool.false_ne_true, if_neg Bool.false_ne_true]

/-- Witness for C5 at a concrete input. -/
theorem c5_witness :
    (strContains (strUpper "KAP Chemistry") "AP" ||
      strContains (strUpper "KAP Chemistry") "KAP" ||
      (([] : List String).map strUpper).contains "AP" ||
      (([] : List String).map strUpper).contains "KAP") = true ∧
    calculateGPA "KAP Chemistry" [] = 5 :=
  ⟨by decide, c5_calculateGPA_characterization.2.1 "KAP Chemistry" [] (by decide)⟩

/-- C3 (amended): the GPA pass assigns `calculateGPA(courseName, tags)` only
to courses whose stored `gpa` is absent; a course that already carries a
`gpa` is left untouched even when that value disagrees with
`calculateGPA(courseName, tags)`.  After the pass every course has some gpa. -/
theorem c3_migrateGPA_amended (courses : List Course) (c : Course)
    (hc : c ∈ courses) :
    (c.gpa = none →
      { c with gpa := some (calculateGPA c.courseName c.tags) } ∈ migrateGPA courses) ∧
    (c.gpa ≠ none → c ∈ migrateGPA courses) ∧
    (∀ c' ∈ migrateGPA courses, c'.gpa ≠ none) := by
  refine ⟨?_, ?_, ?_⟩
  · intro h
    have hmem := List.mem_map_of_mem
      (fun course : Course =>
        match course.gpa with
        | some _ => course
        | none => { course with gpa := some (calculateGPA course.courseName course.tags) }) hc
    simpa [migrateGPA, h] using hmem
  · intro h
    obtain ⟨g, hg⟩ := Option.ne_none_iff_exists'.mp h
    have hmem := List.mem_map_of_mem
      (fun course : Course =>
        match course.gpa with
        | some _ => course
        | none => { course with gpa := some (calculateGPA course.courseName course.tags) }) hc
    simpa [migrateGPA, hg] using hmem
  · intro c' hc'
    unfold migrateGPA at hc'
    obtain ⟨a, _, rfl⟩ := List.mem_map.mp hc'
    cases h : a.gpa <;> simp [h]

/-- Witness for C3's amended theorem at a concrete one-course catalog. -/
theorem c3_witness :
    ((({ blankCourse with courseName := "AP Biology" } : Course).gpa = none →
        { ({ blankCourse with courseName := "AP Biology" } : Course) with
          gpa := some (calculateGPA
            ({ blankCourse with courseName := "AP Biology" } : Course).courseName
            ({ blankCourse with courseName := "AP Biology" } : Course).tags) } ∈
          migrateGPA [{ blankCourse with courseName := "AP Biology" }]) ∧
      (({ blankCourse with courseName := "AP Biology" } : Course).gpa ≠ none →
        ({ blankCourse with courseName := "AP Biology" } : Course) ∈
          migrateGPA [{ blankCourse with courseName := "AP Biology" }]) ∧
      (∀ c' ∈ migrateGPA [{ blankCourse with courseName := "AP Biology" }],
        c'.gpa ≠ none)) :=
  c3_migrateGPA_amended [{ blankCourse with courseName := "AP Biology" }]
    { blankCourse with courseName := "AP Biology" } (List.mem_singleton_self _)

/-- C3 counterexample: a course with stored gpa 4.0 and name "AP Biology"
keeps gpa 4.0 through the pass although `calculateGPA("AP Biology", []) = 5.0`
— a stale stored gpa is not recomputed, contrary to the claim. -/
theorem c3_counterexample :
    (migrateGPA [{ blankCourse with
        courseName := "AP Biology"
        gpa := some 4 }]).map Course.gpa = [some 4] ∧
    calculateGPA "AP Biology" [] = 5 ∧ (4 : ℚ) ≠ 5 := by
  refine ⟨rfl, rfl, by norm_num⟩

/-! ### Claims about the semester-pair collapser's consolidation -/

/-- C6: consolidating an A/B pair produces one entry keyed by the base code,
with A's name put through the suffix strip (trailing parenthetical kept),
credits summed, and the fixed full-year term literal; in particular the Art 1
A/B example of the spec consolidates exactly as stated. -/
theorem c6_consolidatePair_spec :
    (∀ (courseA courseB : Course) (baseCode : String),
        (consolidatePair courseA courseB baseCode).courseCode = baseCode ∧
        (consolidatePair courseA courseB baseCode).courseName =
          stripABSuffix courseA.courseName ∧
        (consolidatePair courseA courseB baseCode).credits =
          courseA.credits + courseB.credits ∧
        (consolidatePair courseA courseB baseCode).term = "Semester 1-Semester 2") ∧
    stripABSuffix "Art 1 A (High School Credit)" = "Art 1 (High School Credit)" ∧
    stripABSuffix "Art 1 B (High School Credit)" = "Art 1 (High School Credit)" ∧
    stripABSuffix "Academic Decathlon 2A" = "Academic Decathlon 2" ∧
    (consolidatePair
        { blankCourse with
          courseCode := "0100A"
          courseName := "Art 1 A (High School Credit)"
          credits := 1 / 2 }
        { blankCourse with
          courseCode := "0100B"
          courseName := "Art 1 B (High School Credit)"
          credits := 1 / 2 }
        "0100").courseCode = "0100" ∧
    (consolidatePair
        { blankCourse with
          courseCode := "0100A"
          courseName := "Art 1 A (High School Credit)"
          credits := 1 / 2 }
        { blankCourse with
          courseCode := "0100B"
          courseName := "Art 1 B (High School Credit)"
          credits := 1 / 2 }
        "0100").courseName = "Art 1 (High School Credit)" ∧
    (consolidatePair
        { blankCourse with
          courseCode := "0100A"
          courseName := "Art 1 A (High School Credit)"
          credits := 1 / 2 }
        { blankCourse with
          courseCode := "0100B"
          courseName := "Art 1 B (High School Credit)"
          credits := 1 / 2 }
        "0100").credits = 1 ∧
    (consolidatePair
        { blankCourse with
          courseCode := "0100A"
          courseName := "Art 1 A (High School Credit)"
          credits := 1 / 2 }
        { blankCourse with
          courseCode := "0100B"
          courseName := "Art 1 B (High School Credit)"
          credits := 1 / 2 }
        "0100").term = "Semester 1-Semester 2" := by
  refine ⟨fun A B k => ⟨rfl, rfl, rfl, rfl⟩, rfl, rfl, rfl, rfl, rfl, ?_, rfl⟩
  show (1 / 2 : ℚ) + 1 / 2 = 1
  norm_num

theorem nodupNorm_append_singleton {l : List String} {x : String}
    (h : nodupNorm l = true)
    (hx : ∀ b ∈ l, normalizeSchoolName b ≠ normalizeSchoolName x) :
    nodupNorm (l ++ [x]) = true := by
  induction l with
  | nil => simp [nodupNorm]
  | cons a l ih =>
    simp only [nodupNorm, Bool.and_eq_true, List.all_eq_true] at h ⊢
    obtain ⟨h1, h2⟩ := h
    refine ⟨?_, ih h2 (fun b hb => hx b (List.mem_cons_of_mem _ hb))⟩
    intro b hb
    rcases List.mem_append.mp hb with hb | hb
    · exact h1 b hb
    · have hbx : b = x := by simpa using hb
      subst hbx
      rw [bne_iff_ne]
      exact fun heq => hx a (List.mem_cons_self _ _) heq

theorem replaceFirstOcc_submem {b sch m : String} :
    ∀ {as : List String}, b ∈ replaceFirstOcc as m sch → b ∈ as ∨ b = sch := by
  intro as
  induction as with
  | nil => intro h; simp [replaceFirstOcc] at h
  | cons a as ih =>
    intro h
    by_cases ham : (a == m) = true
    · simp only [replaceFirstOcc, if_pos ham] at h
      rcases List.mem_cons.mp h with h | h
      · right; exact h
      · left; exact List.mem_cons_of_mem _ h
    · simp only [replaceFirstOcc, if_neg ham] at h
      rcases List.mem_cons.mp h with h | h
      · left; exact h ▸ List.mem_cons_self _ _
      · rcases ih h with h | h
        · left; exact List.mem_cons_of_mem _ h
        · right; exact h

theorem nodupNorm_replaceFirst {sch : String} :
    ∀ {acc : List String} {m : String},
      acc.find? (fun e => normalizeSchoolName e == normalizeSchoolName sch) = some m →
      nodupNorm acc = true →
      nodupNorm (replaceFirstOcc acc m sch) = true := by
  intro acc
  induction acc with
  | nil => intro m hf _; simp at hf
  | cons a as ih =>
    intro m hf h
    simp only [nodupNorm, Bool.and_eq_true, List.all_eq_true] at h
    obtain ⟨h1, h2⟩ := h
    by_cases hpa : (normalizeSchoolName a == normalizeSchoolName sch) = true
    · simp only [List.find?, hpa] at hf
      have hm : a = m := by injection hf
      subst hm
      have hra : replaceFirstOcc (a :: as) a sch = sch :: as := by
        simp [replaceFirstOcc]
      rw [hra]
      simp only [nodupNorm, Bool.and_eq_true, List.all_eq_true]
      have hna : normalizeSchoolName a = normalizeSchoolName sch := eq_of_beq hpa
      refine ⟨?_, h2⟩
      intro b hb
      rw [bne_iff_ne, ← hna]
      exact bne_iff_ne.mp (h1 b hb)
    · have hpa' : (normalizeSchoolName a == normalizeSchoolName sch) = false :=
        Bool.eq_false_iff.mpr hpa
      simp only [List.find?, hpa'] at hf
      have ham : (a == m) = false := by
        cases hab : (a == m) with
        | false => rfl
        | true =>
          exfalso
          have hameq : a = m := eq_of_beq hab
          subst hameq
          have hpm := List.find?_some hf
          exact hpa hpm
      simp only [replaceFirstOcc, if_neg (by simp [ham] : ¬((a == m) = true))]
      simp only [nodupNorm, Bool.and_eq_true, List.all_eq_true]
      refine ⟨?_, ih hf h2⟩
      intro b hb
      rcases replaceFirstOcc_submem hb with hbs | hbe
      · exact h1 b hbs
      · subst hbe
        rw [bne_iff_ne]
        intro heq
        exact hpa (beq_iff_eq.mpr heq)

theorem nodupNorm_mergeOneSchool (acc : List String) (sch : String)
    (h : nodupNorm acc = true) : nodupNorm (mergeOneSchool acc sch) = true := by
  unfold mergeOneSchool
  cases hfind : acc.find? (fun e => normalizeSchoolName e == normalizeSchoolName sch) with
  | none =>
    show nodupNorm (acc ++ [sch]) = true
    have hall := List.find?_eq_none.mp hfind
    refine nodupNorm_append_singleton h ?_
    intro b hb heq
    exact hall b hb (beq_iff_eq.mpr heq)
  | some m =>
    show nodupNorm
      (if (strHasSpace sch && !strHasSpace m) = true then replaceFirstOcc acc m sch
       else acc) = true
    by_cases hc : (strHasSpace sch && !strHasSpace m) = true
    · rw [if_pos hc]
      exact nodupNorm_replaceFirst hfind h
    · rw [if_neg hc]
      exact h

theorem nodupNorm_mergeSchoolsLoop (existing incoming : List String)
    (h : nodupNorm existing = true) :
    nodupNorm (mergeSchoolsLoop existing incoming) = true := by
  induction incoming generalizing existing with
  | nil => exact h
  | cons sch rest ih => exact ih _ (nodupNorm_mergeOneSchool existing sch h)

theorem nodupNorm_seedSchool (schools : List String) (nm : String)
    (h : nodupNorm schools = true) : nodupNorm (seedSchool schools nm) = true := by
  unfold seedSchool
  by_cases hcond : (decide (nm ≠ "") &&
      !(schools.any fun sch => normalizeSchoolName sch == normalizeSchoolName nm)) = true
  · rw [if_pos hcond]
    rw [Bool.and_eq_true] at hcond
    have hany := hcond.2
    rw [Bool.not_eq_true'] at hany
    have hall := List.any_eq_false.mp hany
    exact nodupNorm_append_singleton h
      (fun b hb heq => hall b hb (beq_iff_eq.mpr heq))
  · rw [if_neg hcond]
    exact h

theorem mergeOneSchool_spaced (s c : String)
    (hnorm : normalizeSchoolName s = normalizeSchoolName c)
    (hs : strHasSpace s = true) (hc : strHasSpace c = false) :
    mergeOneSchool [s] c = [s] ∧ mergeOneSchool [c] s = [s] := by
  have hbeq : (normalizeSchoolName s == normalizeSchoolName c) = true :=
    beq_iff_eq.mpr hnorm
  have hbeq' : (normalizeSchoolName c == normalizeSchoolName s) = true :=
    beq_iff_eq.mpr hnorm.symm
  constructor
  · have hfind1 : [s].find? (fun e => normalizeSchoolName e == normalizeSchoolName c) =
        some s := by
      simp [List.find?, hbeq]
    simp only [mergeOneSchool, hfind1]
    rw [if_neg (by simp [hc])]
  · have hfind2 : [c].find? (fun e => normalizeSchoolName e == normalizeSchoolName s) =
        some c := by
      simp [List.find?, hbeq']
    simp only [mergeOneSchool, hfind2]
    rw [if_pos (by simp [hs, hc])]
    simp [replaceFirstOcc]

/-- C8: the schools list of a course produced by the catalog merger stays free
of normalized duplicates (both through the per-course seeding step and the
duplicate-code merge), and when a spaced form and a compact form of the same
school name are merged — in either arrival order — exactly one entry remains
and it is the spaced form. -/
theorem c8_schools_merge_spec :
    (∀ (schools : List String) (nm : String),
        nodupNorm schools = true → nodupNorm (seedSchool schools nm) = true) ∧
    (∀ (existing incoming : Course),
        nodupNorm existing.schools = true →
        nodupNorm (mergeCourse existing incoming).schools = true) ∧
    (∀ (existing incoming : Course) (s c : String),
        existing.schools = [s] → incoming.schools = [c] →
        normalizeSchoolName s = normalizeSchoolName c →
        strHasSpace s = true → strHasSpace c = false →
        (mergeCourse existing incoming).schools = [s] ∧
        (mergeCourse incoming existing).schools = [s]) := by
  refine ⟨nodupNorm_seedSchool, ?_, ?_⟩
  · intro e i h
    exact nodupNorm_mergeSchoolsLoop e.schools i.schools h
  · intro e i s c he hi hnorm hs hc
    constructor
    · show mergeSchoolsLoop e.schools i.schools = [s]
      rw [he, hi]
      exact (mergeOneSchool_spaced s c hnorm hs hc).1
    · show mergeSchoolsLoop i.schools e.schools = [s]
      rw [he, hi]
      exact (mergeOneSchool_spaced s c hnorm hs hc).2

/-- Witness for C8 on the Seven Lakes example of the spec. -/
theorem c8_witness :
    nodupNorm ["SevenLakesHighSchool"] = true ∧
    normalizeSchoolName "Seven Lakes High School" =
      normalizeSchoolName "SevenLakesHighSchool" ∧
    (mergeCourse { blankCourse with schools := ["Seven Lakes High School"] }
        { blankCourse with schools := ["SevenLakesHighSchool"] }).schools =
      ["Seven Lakes High School"] ∧
    (mergeCourse { blankCourse with schools := ["SevenLakesHighSchool"] }
        { blankCourse with schools := ["Seven Lakes High School"] }).schools =
      ["Seven Lakes High School"] := by
  refine ⟨by decide, by decide, ?_, ?_⟩
  · exact (c8_schools_merge_spec.2.2
      { blankCourse with schools := ["Seven Lakes High School"] }
      { blankCourse with schools := ["SevenLakesHighSchool"] }
      "Seven Lakes High School" "SevenLakesHighSchool" rfl rfl
      (by decide) (by decide) (by decide)).1
  · exact (c8_schools_merge_spec.2.2
      { blankCourse with schools := ["Seven Lakes High School"] }
      { blankCourse with schools := ["SevenLakesHighSchool"] }
      "Seven Lakes High School" "SevenLakesHighSchool" rfl rfl
      (by decide) (by decide) (by decide)).2

theorem isWsChar_eq_false_of_isAlphanum {c : Char} (h : c.isAlphanum = true) :
    isWsChar c = false := by
  by_contra hne
  rw [Bool.not_eq_false] at hne
  simp only [isWsChar, Bool.or_eq_true, decide_eq_true_eq] at hne
  rcases hne with ((((h1 | h2) | h3) | h4) | h5) | h6 <;> subst_vars <;> simp at h

theorem isWsChar_eq_false_of_isABChar {d : Char} (h : isABChar d = true) :
    isWsChar d = false := by
  simp only [isABChar, Bool.or_eq_true, decide_eq_true_eq] at h
  rcases h with ((h1 | h2) | h3) | h4 <;> subst_vars <;> decide

theorem ne_rp_of_isABChar {d : Char} (h : isABChar d = true) : d ≠ ')' := by
  simp only [isABChar, Bool.or_eq_true, decide_eq_true_eq] at h
  rcases h with ((h1 | h2) | h3) | h4 <;> subst_vars <;> decide

theorem parenGroupOk_concat_ne (d : Char) (hd : d ≠ ')') :
    ∀ (l : List Char), parenGroupOk (l ++ [d]) = false := by
  have hsome : (some d == some ')') = false :=
    beq_eq_false_iff_ne.mpr (fun h => hd (Option.some.inj h))
  intro l
  induction l with
  | nil =>
    by_cases hw : isWsChar d = true
    · simp [parenGroupOk, List.dropWhile, hw]
    · have hw' : isWsChar d = false := Bool.eq_false_iff.mpr hw
      simp [parenGroupOk, List.dropWhile, hw', hsome]
  | cons a l ih =>
    by_cases hw : isWsChar a = true
    · have hdw : ((a :: l) ++ [d]).dropWhile isWsChar = (l ++ [d]).dropWhile isWsChar := by
        simp [List.dropWhile, hw]
      unfold parenGroupOk at ih ⊢
      rw [hdw]
      exact ih
    · have hw' : isWsChar a = false := Bool.eq_false_iff.mpr hw
      have hdw : ((a :: l) ++ [d]).dropWhile isWsChar = (a :: l) ++ [d] := by
        simp [List.dropWhile, hw']
      unfold parenGroupOk
      rw [hdw, List.getLast?_concat, hsome]
      simp

theorem p1AfterWs_concat_none (c d : Char) (hc : c.isAlphanum = true)
    (hd : isABChar d = true) :
    ∀ (u : List Char), p1AfterWs (u ++ [c, d]) = none := by
  have hwc : isWsChar c = false := isWsChar_eq_false_of_isAlphanum hc
  have hpgd : ∀ (v : List Char), parenGroupOk (v ++ [d]) = false :=
    parenGroupOk_concat_ne d (ne_rp_of_isABChar hd)
  intro u
  induction u with
  | nil =>
    have hpg1 : parenGroupOk [d] = false := by simpa using hpgd []
    by_cases habc : isABChar c = true
    · simp [p1AfterWs, hwc, habc, hpg1]
    · simp [p1AfterWs, hwc, habc]
  | cons a u ih =>
    by_cases hwa : isWsChar a = true
    · simp [p1AfterWs, hwa, ih]
    · have hwa' : isWsChar a = false := Bool.eq_false_iff.mpr hwa
      have hpg : parenGroupOk (u ++ [c, d]) = false := by
        have := hpgd (u ++ [c])
        simpa using this
      by_cases haba : isABChar a = true
      · simp [p1AfterWs, hwa', haba, hpg]
      · simp [p1AfterWs, hwa', haba]

theorem p1Replace_concat_id (c d : Char) (hc : c.isAlphanum = true)
    (hd : isABChar d = true) :
    ∀ (u : List Char), p1Replace (u ++ [c, d]) = u ++ [c, d] := by
  have hwc : isWsChar c = false := isWsChar_eq_false_of_isAlphanum hc
  have hwd : isWsChar d = false := isWsChar_eq_false_of_isABChar hd
  intro u
  induction u with
  | nil => simp [p1Replace, hwc, hwd]
  | cons a u ih =>
    by_cases hwa : isWsChar a = true
    · have hnone := p1AfterWs_concat_none c d hc hd u
      simp [p1Replace, hwa, hnone, ih]
    · have hwa' : isWsChar a = false := Bool.eq_false_iff.mpr hwa
      simp [p1Replace, hwa', ih]

theorem p2Replace_cons_none {x : Char} {rest : List Char}
    (h : p2MatchAt (x :: rest) = none) :
    p2Replace (x :: rest) = x :: p2Replace rest := by
  simp only [p2Replace, h]

theorem p2Replace_concat (c d : Char) (hc : c.isAlphanum = true)
    (hd : isABChar d = true) :
    ∀ (u : List Char), p2Replace (u ++ [c, d]) = u ++ [c] := by
  have hpgd : ∀ (v : List Char), parenGroupOk (v ++ [d]) = false :=
    parenGroupOk_concat_ne d (ne_rp_of_isABChar hd)
  intro u
  induction u with
  | nil => simp [p2Replace, p2MatchAt, hc, hd]
  | cons a u ih =>
    cases u with
    | nil =>
      have hpg1 : parenGroupOk [d] = false := by simpa using hpgd []
      by_cases hcnd : (a.isAlphanum && isABChar c) = true
      · simp [p2Replace, p2MatchAt, hcnd, hpg1, hc, hd, ih]
      · simp [p2Replace, p2MatchAt, hcnd, hc, hd, ih]
    | cons b u' =>
      have hpg : parenGroupOk (u' ++ [c, d]) = false := by
        have := hpgd (u' ++ [c])
        simpa using this
      have hm : p2MatchAt (a :: b :: (u' ++ [c, d])) = none := by
        by_cases hcnd : (a.isAlphanum && isABChar b) = true
        · simp [p2MatchAt, hcnd, hpg]
        · simp [p2MatchAt, hcnd]
      have ih' : p2Replace (b :: (u' ++ [c, d])) = b :: (u' ++ [c]) := ih
      have hgoal : ((a :: b :: u') ++ [c, d]) = a :: (b :: (u' ++ [c, d])) := rfl
      rw [hgoal, p2Replace_cons_none hm, ih']
      rfl

theorem trimL_concat_of_head (u : List Char) (c : Char)
    (hcw : isWsChar c = false)
    (hhead : headOkW (u ++ [c]) = true) :
    trimL (u ++ [c]) = u ++ [c] := by
  unfold trimL
  have h1 : (u ++ [c]).dropWhile isWsChar = u ++ [c] := by
    cases u with
    | nil => simp [List.dropWhile, hcw]
    | cons a u' =>
      have ha : isWsChar a = false := by simpa [headOkW] using hhead
      simp [List.dropWhile, ha]
  rw [h1]
  have h2 : (u ++ [c]).reverse = c :: u.reverse := by simp
  rw [h2]
  have h3 : (c :: u.reverse).dropWhile isWsChar = c :: u.reverse := by
    simp [List.dropWhile, hcw]
  rw [h3]
  simp

theorem stripABSuffix_concat (u : List Char) (c d : Char)
    (hc : c.isAlphanum = true) (hd : isABChar d = true)
    (hhead : headOkW (u ++ [c, d]) = true) :
    stripABSuffix ⟨u ++ [c, d]⟩ = ⟨u ++ [c]⟩ := by
  unfold stripABSuffix
  have hdata : (⟨u ++ [c, d]⟩ : String).data = u ++ [c, d] := rfl
  rw [hdata, p1Replace_concat_id c d hc hd u, p2Replace_concat c d hc hd u]
  have hhead' : headOkW (u ++ [c]) = true := by
    cases u with
    | nil => simp [headOkW, isWsChar_eq_false_of_isAlphanum hc]
    | cons a u' => simpa [headOkW] using hhead
  rw [trimL_concat_of_head u c (isWsChar_eq_false_of_isAlphanum hc) hhead']

theorem mapSet_mem {m : GroupMap} {k : List Char} {v : ABGroup} {q : List Char × ABGroup}
    (hq : q ∈ mapSet m k v) : q ∈ m ∨ q = (k, v) := by
  unfold mapSet at hq
  by_cases hhas : mapHas m k = true
  · rw [if_pos hhas] at hq
    obtain ⟨p, hp, rfl⟩ := List.mem_map.mp hq
    by_cases hpk : (p.1 == k) = true
    · right; simp [hpk]
    · left; simpa [hpk] using hp
  · rw [if_neg hhas] at hq
    rcases List.mem_append.mp hq with h | h
    · left; exact h
    · right; simpa using h

theorem mapGet_gMemOK {cs : List Course} {m1 : GroupMap} {base : List Char}
    (hm1 : ∀ p ∈ m1, gMemOK cs p.2) :
    gMemOK cs ((mapGet m1 base).getD ⟨none, none, []⟩) := by
  cases hget : mapGet m1 base with
  | none => exact ⟨fun a ha => by simp at ha, fun b hb => by simp at hb,
      fun o ho => by simp at ho⟩
  | some g =>
    unfold mapGet at hget
    cases hfind : m1.find? (fun p => p.1 == base) with
    | none => rw [hfind] at hget; simp at hget
    | some q =>
      rw [hfind] at hget
      have hq : q ∈ m1 := List.mem_of_find?_eq_some hfind
      have hqg : q.2 = g := by simpa using hget
      simpa [hqg] using hm1 q hq

theorem addCourse_gMemOK {cs : List Course} {m : GroupMap} {c : Course}
    (hm : ∀ p ∈ m, gMemOK cs p.2) (hc : c ∈ cs) :
    ∀ p ∈ addCourse m c, gMemOK cs p.2 := by
  intro p hp
  unfold addCourse at hp
  cases habm : abMatch c.courseCode with
  | none =>
    rw [habm] at hp
    dsimp only [] at hp
    rcases mapSet_mem hp with h | h
    · exact hm p h
    · subst h
      exact ⟨fun a ha => by simp at ha, fun b hb => by simp at hb,
        fun o ho => by rw [show o = c from by simpa using ho]; exact hc⟩
  | some bs =>
    obtain ⟨base, sfx⟩ := bs
    rw [habm] at hp
    dsimp only [] at hp
    set m1 := if mapHas m base = true then m else mapSet m base ⟨none, none, []⟩ with hm1def
    have hm1 : ∀ q ∈ m1, gMemOK cs q.2 := by
      intro q hq
      rw [hm1def] at hq
      by_cases hhas : mapHas m base = true
      · rw [if_pos hhas] at hq
        exact hm q hq
      · rw [if_neg hhas] at hq
        rcases mapSet_mem hq with h | h
        · exact hm q h
        · subst h
          exact ⟨fun a ha => by simp at ha, fun b hb => by simp at hb,
            fun o ho => by simp at ho⟩
    have hg : gMemOK cs ((mapGet m1 base).getD ⟨none, none, []⟩) := mapGet_gMemOK hm1
    set g := (mapGet m1 base).getD ⟨none, none, []⟩ with hgdef
    have hfin : ∀ (v : ABGroup), gMemOK cs v → p ∈ mapSet m1 base v → gMemOK cs p.2 := by
      intro v hv hpv
      rcases mapSet_mem hpv with h | h
      · exact hm1 p h
      · subst h
        exact hv
    by_cases hsfx : sfx = 'A'
    · rw [if_pos hsfx] at hp
      cases hga : g.ga with
      | some a0 =>
        rw [hga] at hp
        dsimp only [] at hp
        refine hfin ⟨some a0, g.gb, g.oth ++ [c]⟩ ⟨?_, ?_, ?_⟩ hp
        · intro a ha
          have ha0 : a0 = a := by simpa using ha
          subst ha0
          exact hg.1 a0 hga
        · intro b hb
          exact hg.2.1 b hb
        · intro o ho
          rcases List.mem_append.mp ho with h | h
          · exact hg.2.2 o h
          · rw [show o = c from by simpa using h]
            exact hc
      | none =>
        rw [hga] at hp
        dsimp only [] at hp
        refine hfin ⟨some c, g.gb, g.oth⟩ ⟨?_, ?_, ?_⟩ hp
        · intro a ha
          have hca : c = a := by simpa using ha
          subst hca
          exact hc
        · intro b hb
          exact hg.2.1 b hb
        · intro o ho
          exact hg.2.2 o ho
    · rw [if_neg hsfx] at hp
      cases hgb : g.gb with
      | some b0 =>
        rw [hgb] at hp
        dsimp only [] at hp
        refine hfin ⟨g.ga, some b0, g.oth ++ [c]⟩ ⟨?_, ?_, ?_⟩ hp
        · intro a ha
          exact hg.1 a ha
        · intro b hb
          have hb0 : b0 = b := by simpa using hb
          subst hb0
          exact hg.2.1 b0 hgb
        · intro o ho
          rcases List.mem_append.mp ho with h | h
          · exact hg.2.2 o h
          · rw [show o = c from by simpa using h]
            exact hc
      | none =>
        rw [hgb] at hp
        dsimp only [] at hp
        refine hfin ⟨g.ga, some c, g.oth⟩ ⟨?_, ?_, ?_⟩ hp
        · intro a ha
          exact hg.1 a ha
        · intro b hb
          have hcb : c = b := by simpa using hb
          subst hcb
          exact hc
        · intro o ho
          exact hg.2.2 o ho

theorem collapseGroups_gMemOK (cs : List Course) :
    ∀ p ∈ collapseGroups cs, gMemOK cs p.2 := by
  suffices h : ∀ (l : List Course) (m : GroupMap), (∀ x ∈ l, x ∈ cs) →
      (∀ p ∈ m, gMemOK cs p.2) → ∀ p ∈ l.foldl addCourse m, gMemOK cs p.2 by
    exact fun p hp => h cs [] (fun x hx => hx) (by simp) p hp
  intro l
  induction l with
  | nil => intro m _ hm p hp; exact hm p hp
  | cons x l ih =>
    intro m hl hm p hp
    exact ih (addCourse m x) (fun y hy => hl y (List.mem_cons_of_mem _ hy))
      (addCourse_gMemOK hm (hl x (List.mem_cons_self _ _))) p hp

theorem collapseCatalog_mem_group {cs : List Course} {c : Course}
    (hc : c ∈ collapseCatalog cs) :
    ∃ p ∈ collapseGroups cs, c ∈ groupOut p.1 p.2 := by
  unfold collapseCatalog at hc
  revert hc
  generalize collapseGroups cs = m
  induction m with
  | nil => intro hc; simp at hc
  | cons q m ih =>
    intro hc
    rcases List.mem_append.mp hc with h | h
    · exact ⟨q, List.mem_cons_self _ _, h⟩
    · obtain ⟨p, hpm, hpo⟩ := ih h
      exact ⟨p, List.mem_cons_of_mem _ hpm, hpo⟩

theorem collapseCatalog_name_strip (cs : List Course) (c : Course)
    (hc : c ∈ collapseCatalog cs) :
    ∃ c0 ∈ cs, c.courseName = stripABSuffix c0.courseName := by
  obtain ⟨p, hpm, hpo⟩ := collapseCatalog_mem_group hc
  have hg := collapseGroups_gMemOK cs p hpm
  unfold groupOut at hpo
  by_cases hsw : startsWithL noSuffixTag p.1 = true
  · rw [if_pos hsw] at hpo
    obtain ⟨o, ho, rfl⟩ := List.mem_map.mp hpo
    exact ⟨o, hg.2.2 o ho, rfl⟩
  · rw [if_neg hsw] at hpo
    cases hga : p.2.ga with
    | some a =>
      cases hgb : p.2.gb with
      | some b =>
        rw [hga, hgb] at hpo
        rcases List.mem_cons.mp hpo with h | h
        · subst h
          exact ⟨a, hg.1 a hga, rfl⟩
        · obtain ⟨o, ho, rfl⟩ := List.mem_map.mp h
          exact ⟨o, hg.2.2 o ho, rfl⟩
      | none =>
        rw [hga, hgb] at hpo
        rcases List.mem_append.mp hpo with h | h
        · rcases List.mem_append.mp h with h' | h'
          · have : c = stripNameCourse a := by simpa using h'
            subst this
            exact ⟨a, hg.1 a hga, rfl⟩
          · simp at h'
        · obtain ⟨o, ho, rfl⟩ := List.mem_map.mp h
          exact ⟨o, hg.2.2 o ho, rfl⟩
    | none =>
      cases hgb : p.2.gb with
      | some b =>
        rw [hga, hgb] at hpo
        rcases List.mem_append.mp hpo with h | h
        · rcases List.mem_append.mp h with h' | h'
          · simp at h'
          · have : c = stripNameCourse b := by simpa using h'
            subst this
            exact ⟨b, hg.2.1 b hgb, rfl⟩
        · obtain ⟨o, ho, rfl⟩ := List.mem_map.mp h
          exact ⟨o, hg.2.2 o ho, rfl⟩
      | none =>
        rw [hga, hgb] at hpo
        rcases List.mem_append.mp hpo with h | h
        · rcases List.mem_append.mp h with h' | h' <;> simp at h'
        · obtain ⟨o, ho, rfl⟩ := List.mem_map.mp h
          exact ⟨o, hg.2.2 o ho, rfl⟩

/-- C10: the strip of the collapse migration is case-insensitive and keys only
on the final character: any name ending in an alphanumeric character followed
by `a`/`b`/`A`/`B` (not preceded by whitespace, e.g. `"Algebra"`) loses just
its final letter; and every entry of the collapse output — consolidated pairs,
partial pairs and non-A/B pass-through entries alike — carries a courseName
that is `stripABSuffix` of some input course's name. -/
theorem c10_strip_spec :
    (∀ (u : List Char) (c d : Char),
        c.isAlphanum = true → isABChar d = true → headOkW (u ++ [c, d]) = true →
        stripABSuffix ⟨u ++ [c, d]⟩ = ⟨u ++ [c]⟩) ∧
    stripABSuffix "Algebra" = "Algebr" ∧
    (∀ (cs : List Course) (c : Course), c ∈ collapseCatalog cs →
        ∃ c0 ∈ cs, c.courseName = stripABSuffix c0.courseName) :=
  ⟨stripABSuffix_concat, by decide, collapseCatalog_name_strip⟩

/-- Witness for C10: `stripABSuffix "Algebra" = "Algebr"` via the general
final-letter theorem. -/
theorem c10_witness :
    ('r'.isAlphanum = true) ∧ (isABChar 'a' = true) ∧
    headOkW (['A', 'l', 'g', 'e', 'b'] ++ ['r', 'a']) = true ∧
    stripABSuffix ⟨['A', 'l', 'g', 'e', 'b'] ++ ['r', 'a']⟩ =
      ⟨['A', 'l', 'g', 'e', 'b'] ++ ['r']⟩ :=
  ⟨by decide, by decide, by decide,
    c10_strip_spec.1 ['A', 'l', 'g', 'e', 'b'] 'r' 'a' (by decide) (by decide) (by decide)⟩

theorem startsWithL_append_self (p t : List Char) : startsWithL p (p ++ t) = true := by
  induction p with
  | nil => rfl
  | cons a p ih => simp [startsWithL, ih]

theorem startsWithL_mono {p l : List Char} (h : startsWithL p l = true) (t : List Char) :
    startsWithL p (l ++ t) = true := by
  induction p generalizing l with
  | nil => rfl
  | cons a p ih =>
    cases l with
    | nil => simp [startsWithL] at h
    | cons b l =>
      simp only [startsWithL, Bool.and_eq_true] at h
      simp only [List.cons_append, startsWithL, Bool.and_eq_true]
      exact ⟨h.1, ih h.2⟩

theorem mapHas_true_of_mem {m : GroupMap} {p : List Char × ABGroup} (hp : p ∈ m) :
    mapHas m p.1 = true := by
  unfold mapHas
  rw [List.any_eq_true]
  exact ⟨p, hp, by simp⟩

theorem not_mem_keys_of_mapHas_false {m : GroupMap} {k : List Char}
    (h : mapHas m k = false) : k ∉ m.map Prod.fst := by
  intro hk
  obtain ⟨p, hp, hpk⟩ := List.mem_map.mp hk
  have := mapHas_true_of_mem hp
  rw [hpk, h] at this
  exact Bool.false_ne_true this

theorem mapGet_isSome_of_mapHas {m : GroupMap} {k : List Char}
    (h : mapHas m k = true) : ∃ g, mapGet m k = some g := by
  unfold mapHas at h
  obtain ⟨p, hp, hpk⟩ := List.any_eq_true.mp h
  unfold mapGet
  cases hfind : m.find? (fun q => q.1 == k) with
  | some q => exact ⟨q.2, by simp⟩
  | none =>
    exfalso
    exact (List.find?_eq_none.mp hfind) p hp hpk

theorem mapGet_mapSet_fresh {m : GroupMap} {k : List Char} {v : ABGroup}
    (h : mapHas m k = false) : mapGet (mapSet m k v) k = some v := by
  unfold mapSet
  rw [if_neg (by simp [h])]
  unfold mapGet
  have hall : ∀ p ∈ m, ¬((fun q => q.1 == k) p = true) := by
    intro p hp hpk
    have := mapHas_true_of_mem hp
    have hk : p.1 = k := by simpa using hpk
    rw [hk, h] at this
    exact Bool.false_ne_true this
  induction m with
  | nil => simp
  | cons q m ih =>
    have hq := hall q (List.mem_cons_self _ _)
    have hq' : (q.1 == k) = false := Bool.eq_false_iff.mpr hq
    simp only [List.cons_append, List.find?, hq']
    exact ih (by
      unfold mapHas at h ⊢
      simp only [List.any_cons, Bool.or_eq_false_iff] at h
      exact h.2) (fun p hp => hall p (List.mem_cons_of_mem _ hp))

theorem mapSet_keys_of_has {m : GroupMap} {k : List Char} {v : ABGroup}
    (h : mapHas m k = true) : (mapSet m k v).map Prod.fst = m.map Prod.fst := by
  unfold mapSet
  rw [if_pos h]
  rw [List.map_map]
  refine List.map_congr_left ?_
  intro p _
  by_cases hpk : (p.1 == k) = true
  · simp [hpk, eq_of_beq hpk]
  · have hne : p.1 ≠ k := fun he => hpk (beq_iff_eq.mpr he)
    simp [hne]

theorem mapSet_keys_of_fresh {m : GroupMap} {k : List Char} {v : ABGroup}
    (h : mapHas m k = false) :
    (mapSet m k v).map Prod.fst = m.map Prod.fst ++ [k] := by
  unfold mapSet
  rw [if_neg (by simp [h])]
  simp

theorem mapWt_mapSet_fresh {m : GroupMap} {k : List Char} {v : ABGroup}
    (h : mapHas m k = false) : mapWt (mapSet m k v) = mapWt m + gwt v := by
  unfold mapSet
  rw [if_neg (by simp [h])]
  unfold mapWt
  simp

theorem mapHas_true_of_mapGet {m : GroupMap} {k : List Char} {g : ABGroup}
    (hget : mapGet m k = some g) : mapHas m k = true := by
  unfold mapGet at hget
  cases hf : m.find? (fun p => p.1 == k) with
  | none => rw [hf] at hget; simp at hget
  | some p0 =>
    have hp0 : p0 ∈ m := List.mem_of_find?_eq_some hf
    have hp0k := List.find?_some hf
    have hk : p0.1 = k := eq_of_beq hp0k
    unfold mapHas
    rw [List.any_eq_true]
    exact ⟨p0, hp0, by simp [hk]⟩

theorem mapWt_mapSet_get {m : GroupMap} {k : List Char} {g v : ABGroup}
    (hnd : (m.map Prod.fst).Nodup) (hget : mapGet m k = some g) :
    mapWt (mapSet m k v) + gwt g = mapWt m + gwt v := by
  induction m with
  | nil => simp [mapGet] at hget
  | cons q m ih =>
    rw [List.map_cons, List.nodup_cons] at hnd
    obtain ⟨hq1, hq2⟩ := hnd
    by_cases hqk : (q.1 == k) = true
    · have hqk' : q.1 = k := eq_of_beq hqk
      have hgq : q.2 = g := by
        unfold mapGet at hget
        simp [List.find?, hqk] at hget
        exact hget
      have hhas : mapHas (q :: m) k = true := by
        unfold mapHas
        simp [hqk]
      have hmap : m.map (fun p => if p.1 == k then ((k, v) : List Char × ABGroup) else p)
          = m := by
        have hcong : ∀ p ∈ m,
            (if p.1 == k then ((k, v) : List Char × ABGroup) else p) = p := by
          intro p hp
          have hne : ¬((p.1 == k) = true) := by
            intro he
            apply hq1
            rw [hqk', ← eq_of_beq he]
            exact List.mem_map_of_mem Prod.fst hp
          rw [if_neg hne]
        rw [List.map_congr_left hcong]
        simp
      have hset : mapSet (q :: m) k v = (k, v) :: m := by
        unfold mapSet
        rw [if_pos hhas]
        simp only [List.map_cons, hqk, if_true, hmap]
      rw [hset, ← hgq]
      unfold mapWt
      simp only [List.map_cons, List.sum_cons]
      omega
    · have hqk' : (q.1 == k) = false := Bool.eq_false_iff.mpr hqk
      have hget' : mapGet m k = some g := by
        unfold mapGet at hget ⊢
        simp only [List.find?, hqk'] at hget
        exact hget
      have hhasm : mapHas m k = true := mapHas_true_of_mapGet hget'
      have hhascons : mapHas (q :: m) k = true := by
        unfold mapHas at hhasm ⊢
        simp [hhasm]
      have hset : mapSet (q :: m) k v = q :: mapSet m k v := by
        unfold mapSet
        rw [if_pos hhascons, if_pos hhasm]
        have hne : q.1 ≠ k := fun he => absurd (beq_iff_eq.mpr he) (by simp [hqk'])
        simp [hne]
      rw [hset]
      have hih := ih hq2 hget'
      unfold mapWt at hih ⊢
      simp only [List.map_cons, List.sum_cons]
      omega

theorem dropLast_append_of_getLast? :
    ∀ {l : List Char} {c : Char}, l.getLast? = some c → l.dropLast ++ [c] = l := by
  intro l
  induction l with
  | nil => intro c h; simp at h
  | cons a l ih =>
    intro c h
    cases l with
    | nil =>
      have hac : a = c := by simpa using h
      subst hac
      simp
    | cons b l' =>
      have h' : (b :: l').getLast? = some c := by
        simpa [List.getLast?_cons_cons] using h
      have hll := ih h'
      simp only [List.dropLast, List.cons_append]
      rw [hll]

theorem abMatch_some {code : String} {base : List Char} {sfx : Char}
    (h : abMatch code = some (base, sfx)) :
    base ++ [sfx] = code.data := by
  unfold abMatch at h
  cases hlast : code.data.getLast? with
  | none => rw [hlast] at h; simp at h
  | some c0 =>
    rw [hlast] at h
    dsimp only [] at h
    by_cases hcnd : (c0 = 'A' ∨ c0 = 'B') ∧ 2 ≤ code.data.length
    · rw [if_pos hcnd] at h
      have hpair := Option.some.inj h
      have hb1 : code.data.dropLast = base := congrArg Prod.fst hpair
      have hb2 : c0 = sfx := congrArg Prod.snd hpair
      subst hb2
      rw [← hb1]
      exact dropLast_append_of_getLast? hlast
    · rw [if_neg hcnd] at h
      simp at h

theorem addCourse_eq_some {m : GroupMap} {c : Course} {base : List Char} {sfx : Char}
    (habm : abMatch c.courseCode = some (base, sfx)) :
    addCourse m c =
      (let m1 := if mapHas m base = true then m else mapSet m base ⟨none, none, []⟩
       let g := (mapGet m1 base).getD ⟨none, none, []⟩
       if sfx = 'A' then
         match g.ga with
         | some _ => mapSet m1 base ⟨g.ga, g.gb, g.oth ++ [c]⟩
         | none => mapSet m1 base ⟨some c, g.gb, g.oth⟩
       else
         match g.gb with
         | some _ => mapSet m1 base ⟨g.ga, g.gb, g.oth ++ [c]⟩
         | none => mapSet m1 base ⟨g.ga, some c, g.oth⟩) := by
  unfold addCourse
  rw [habm]

theorem addCourse_branch (m : GroupMap) (c : Course) (base : List Char) (sfx : Char)
    (habm : abMatch c.courseCode = some (base, sfx)) :
    ∃ v : ABGroup,
      addCourse m c =
        mapSet (if mapHas m base = true then m else mapSet m base ⟨none, none, []⟩)
          base v ∧
      gwt v = gwt ((mapGet (if mapHas m base = true then m
        else mapSet m base ⟨none, none, []⟩) base).getD ⟨none, none, []⟩) + 1 := by
  have hac := @addCourse_eq_some m c base sfx habm
  dsimp only [] at hac
  set m1 := (if mapHas m base = true then m else mapSet m base ⟨none, none, []⟩)
    with hm1def
  set g := (mapGet m1 base).getD ⟨none, none, []⟩ with hgdef
  rw [hac]
  by_cases hsfx : sfx = 'A'
  · rw [if_pos hsfx]
    cases hga : g.ga with
    | some a0 =>
      dsimp only []
      refine ⟨⟨some a0, g.gb, g.oth ++ [c]⟩, rfl, ?_⟩
      simp only [gwt, optCount, hga, List.length_append, List.length_cons,
        List.length_nil]
      omega
    | none =>
      dsimp only []
      refine ⟨⟨some c, g.gb, g.oth⟩, rfl, ?_⟩
      simp only [gwt, optCount, hga]
      omega
  · rw [if_neg hsfx]
    cases hgb : g.gb with
    | some b0 =>
      dsimp only []
      refine ⟨⟨g.ga, some b0, g.oth ++ [c]⟩, rfl, ?_⟩
      simp only [gwt, optCount, hgb, List.length_append, List.length_cons,
        List.length_nil]
      omega
    | none =>
      dsimp only []
      refine ⟨⟨g.ga, some c, g.oth⟩, rfl, ?_⟩
      simp only [gwt, optCount, hgb]
      omega

theorem addCourse_inv {m : GroupMap} {seen : List (List Char)} {c : Course}
    (hnd : (m.map Prod.fst).Nodup)
    (hwt : mapWt m = seen.length)
    (hko : keysOk m seen)
    (hfresh : c.courseCode.data ∉ seen)
    (hns : startsWithL noSuffixTag c.courseCode.data = false) :
    ((addCourse m c).map Prod.fst).Nodup ∧
    mapWt (addCourse m c) = seen.length + 1 ∧
    keysOk (addCourse m c) (seen ++ [c.courseCode.data]) := by
  cases habm : abMatch c.courseCode with
  | none =>
    have hac : addCourse m c =
        mapSet m (noSuffixTag ++ c.courseCode.data) ⟨none, none, [c]⟩ := by
      unfold addCourse
      rw [habm]
    have hkfresh : mapHas m (noSuffixTag ++ c.courseCode.data) = false := by
      cases hh : mapHas m (noSuffixTag ++ c.courseCode.data) with
      | false => rfl
      | true =>
        exfalso
        unfold mapHas at hh
        obtain ⟨p, hp, hpk⟩ := List.any_eq_true.mp hh
        have hpk' : p.1 = noSuffixTag ++ c.courseCode.data := by simpa using hpk
        have hsw : startsWithL noSuffixTag p.1 = true := by
          rw [hpk']
          exact startsWithL_append_self _ _
        obtain ⟨-, -, cd, hcd, hpcd⟩ := hko p hp hsw
        rw [hpk'] at hpcd
        have hcdeq : c.courseCode.data = cd := List.append_cancel_left hpcd
        rw [hcdeq] at hfresh
        exact hfresh hcd
    refine ⟨?_, ?_, ?_⟩
    · rw [hac, mapSet_keys_of_fresh hkfresh, List.nodup_append]
      refine ⟨hnd, List.nodup_singleton _, ?_⟩
      intro x hx hx2
      have hxk : x = noSuffixTag ++ c.courseCode.data := by simpa using hx2
      subst hxk
      exact not_mem_keys_of_mapHas_false hkfresh hx
    · rw [hac, mapWt_mapSet_fresh hkfresh, hwt]
      simp [gwt, optCount]
    · rw [hac]
      intro p hp hsw
      rcases mapSet_mem hp with h | h
      · obtain ⟨h1, h2, cd, hcd, hpcd⟩ := hko p h hsw
        exact ⟨h1, h2, cd, List.mem_append_left _ hcd, hpcd⟩
      · subst h
        exact ⟨rfl, rfl, c.courseCode.data, List.mem_append_right _ (by simp), rfl⟩
  | some bs =>
    obtain ⟨base, sfx⟩ := bs
    have hcode : base ++ [sfx] = c.courseCode.data := abMatch_some habm
    have hbasens : startsWithL noSuffixTag base = false := by
      cases hsw : startsWithL noSuffixTag base with
      | false => rfl
      | true =>
        exfalso
        have hmono := startsWithL_mono hsw [sfx]
        rw [hcode, hns] at hmono
        exact Bool.false_ne_true hmono
    obtain ⟨v, hacv, hgwtv⟩ := addCourse_branch m c base sfx habm
    set m1 := (if mapHas m base = true then m else mapSet m base ⟨none, none, []⟩)
      with hm1def
    have hm1nd : (m1.map Prod.fst).Nodup := by
      rw [hm1def]
      by_cases hhas : mapHas m base = true
      · rw [if_pos hhas]
        exact hnd
      · rw [if_neg hhas]
        rw [mapSet_keys_of_fresh (Bool.eq_false_iff.mpr hhas), List.nodup_append]
        refine ⟨hnd, List.nodup_singleton _, ?_⟩
        intro x hx hx2
        have hxb : x = base := by simpa using hx2
        subst hxb
        exact not_mem_keys_of_mapHas_false (Bool.eq_false_iff.mpr hhas) hx
    have hm1wt : mapWt m1 = seen.length := by
      rw [hm1def]
      by_cases hhas : mapHas m base = true
      · rw [if_pos hhas]
        exact hwt
      · rw [if_neg hhas]
        rw [mapWt_mapSet_fresh (Bool.eq_false_iff.mpr hhas), hwt]
        simp [gwt, optCount]
    have hm1ko : keysOk m1 seen := by
      rw [hm1def]
      by_cases hhas : mapHas m base = true
      · rw [if_pos hhas]
        exact hko
      · rw [if_neg hhas]
        intro p hp hsw
        rcases mapSet_mem hp with h | h
        · exact hko p h hsw
        · subst h
          rw [hbasens] at hsw
          exact absurd hsw (by simp)
    have hm1has : mapHas m1 base = true := by
      rw [hm1def]
      by_cases hhas : mapHas m base = true
      · rw [if_pos hhas]
        exact hhas
      · rw [if_neg hhas]
        exact mapHas_true_of_mapGet (mapGet_mapSet_fresh (Bool.eq_false_iff.mpr hhas))
    obtain ⟨g0, hg0⟩ := mapGet_isSome_of_mapHas hm1has
    have hgetD : (mapGet m1 base).getD ⟨none, none, []⟩ = g0 := by
      rw [hg0]
      rfl
    rw [hgetD] at hgwtv
    refine ⟨?_, ?_, ?_⟩
    · rw [hacv, mapSet_keys_of_has hm1has]
      exact hm1nd
    · rw [hacv]
      have hwteq := @mapWt_mapSet_get m1 base g0 v hm1nd hg0
      omega
    · rw [hacv]
      intro p hp hsw
      rcases mapSet_mem hp with h | h
      · obtain ⟨h1, h2, cd, hcd, hpcd⟩ := hm1ko p h hsw
        exact ⟨h1, h2, cd, List.mem_append_left _ hcd, hpcd⟩
      · subst h
        rw [hbasens] at hsw
        exact absurd hsw (by simp)

theorem collapseGroups_inv (cs : List Course) :
    ∀ (m : GroupMap) (seen : List (List Char)),
      (m.map Prod.fst).Nodup → mapWt m = seen.length → keysOk m seen →
      (∀ x ∈ cs, x.courseCode.data ∉ seen) →
      (cs.map (fun c => c.courseCode.data)).Nodup →
      (∀ x ∈ cs, startsWithL noSuffixTag x.courseCode.data = false) →
      ((cs.foldl addCourse m).map Prod.fst).Nodup ∧
      mapWt (cs.foldl addCourse m) = seen.length + cs.length ∧
      keysOk (cs.foldl addCourse m) (seen ++ cs.map (fun c => c.courseCode.data)) := by
  induction cs with
  | nil =>
    intro m seen h1 h2 h3 _ _ _
    simpa using ⟨h1, h2, h3⟩
  | cons x cs ih =>
    intro m seen h1 h2 h3 hfr hnd hns
    simp only [List.foldl_cons, List.length_cons]
    have hstep := addCourse_inv h1 h2 h3 (hfr x (List.mem_cons_self _ _))
      (hns x (List.mem_cons_self _ _))
    have hrec := ih (addCourse m x) (seen ++ [x.courseCode.data]) hstep.1
      (by rw [hstep.2.1]; simp)
      hstep.2.2
      (by
        intro y hy hmem
        rcases List.mem_append.mp hmem with h | h
        · exact hfr y (List.mem_cons_of_mem _ hy) h
        · have hyx : y.courseCode.data = x.courseCode.data := by simpa using h
          rw [List.map_cons, List.nodup_cons] at hnd
          exact hnd.1 (hyx ▸ List.mem_map_of_mem _ hy))
      (by rw [List.map_cons, List.nodup_cons] at hnd; exact hnd.2)
      (fun y hy => hns y (List.mem_cons_of_mem _ hy))
    refine ⟨hrec.1, ?_, ?_⟩
    · rw [hrec.2.1]
      simp only [List.length_append, List.length_cons, List.length_nil]
      omega
    · have hfin := hrec.2.2
      have hseq : (seen ++ [x.courseCode.data]) ++ cs.map (fun c => c.courseCode.data)
          = seen ++ (x :: cs).map (fun c => c.courseCode.data) := by
        simp
      rw [hseq] at hfin
      exact hfin

theorem groupOut_length (p : List Char × ABGroup)
    (hko : startsWithL noSuffixTag p.1 = true → p.2.ga = none ∧ p.2.gb = none) :
    (groupOut p.1 p.2).length + (if isCompletePair p then 1 else 0) = gwt p.2 := by
  unfold groupOut isCompletePair
  by_cases hsw : startsWithL noSuffixTag p.1 = true
  · rw [if_pos hsw]
    obtain ⟨hga, hgb⟩ := hko hsw
    simp [gwt, optCount, hga, hgb, hsw] <;> omega
  · have hsw' : startsWithL noSuffixTag p.1 = false := Bool.eq_false_iff.mpr hsw
    rw [if_neg hsw]
    cases hga : p.2.ga with
    | some a =>
      cases hgb : p.2.gb with
      | some b => simp [gwt, optCount, hga, hgb, hsw'] <;> omega
      | none => simp [gwt, optCount, hga, hgb, hsw'] <;> omega
    | none =>
      cases hgb : p.2.gb with
      | some b => simp [gwt, optCount, hga, hgb, hsw'] <;> omega
      | none => simp [gwt, optCount, hga, hgb, hsw'] <;> omega

theorem buildOut_length (m : GroupMap)
    (hko : ∀ p ∈ m, startsWithL noSuffixTag p.1 = true →
      p.2.ga = none ∧ p.2.gb = none) :
    (m.foldr (fun p acc => groupOut p.1 p.2 ++ acc) []).length +
      (m.filter isCompletePair).length = mapWt m := by
  induction m with
  | nil => simp [mapWt]
  | cons q m ih =>
    have hq := groupOut_length q (hko q (List.mem_cons_self _ _))
    have hih := ih (fun p hp => hko p (List.mem_cons_of_mem _ hp))
    simp only [List.foldr_cons, List.length_append, List.filter_cons]
    unfold mapWt at hih ⊢
    simp only [List.map_cons, List.sum_cons]
    by_cases hc : isCompletePair q = true
    · rw [if_pos hc]
      rw [if_pos hc] at hq
      simp only [List.length_cons]
      omega
    · rw [if_neg hc]
      rw [if_neg hc] at hq
      omega

/-- C7 (amended): for every input catalog whose courseCode values are pairwise
distinct and none of whose codes starts with the migration's internal
`__no_suffix_` sentinel, the collapse output has exactly
`input_count − pairs_fully_collapsed` entries. -/
theorem c7_collapse_cardinality (cs : List Course)
    (hnd : (cs.map (fun c => c.courseCode.data)).Nodup)
    (hns : ∀ c ∈ cs, startsWithL noSuffixTag c.courseCode.data = false) :
    (collapseCatalog cs).length + numCollapsedPairs cs = cs.length ∧
    (collapseCatalog cs).length = cs.length - numCollapsedPairs cs := by
  have hinv := collapseGroups_inv cs [] [] (by simp) (by simp [mapWt])
    (by intro p hp; simp at hp) (by simp) hnd hns
  have hko : ∀ p ∈ collapseGroups cs, startsWithL noSuffixTag p.1 = true →
      p.2.ga = none ∧ p.2.gb = none := by
    intro p hp hsw
    obtain ⟨h1, h2, -⟩ := hinv.2.2 p hp hsw
    exact ⟨h1, h2⟩
  have hlen := buildOut_length (collapseGroups cs) hko
  have hwt : mapWt (collapseGroups cs) = cs.length := by
    have hw := hinv.2.1
    simpa using hw
  constructor
  · unfold collapseCatalog numCollapsedPairs
    omega
  · unfold collapseCatalog numCollapsedPairs
    omega

/-- C7 counterexample: with the pairwise-distinct codes
`"__no_suffix_0100A"` and `"0100"`, the fake group key of the second course
collides with the real base key of the first, the `Map.set` overwrite silently
drops the first course, and the output has 1 entry although
`input_count − pairs_fully_collapsed = 2 − 0`. -/
theorem c7_counterexample :
    (List.map (fun c => c.courseCode)
      [{ blankCourse with courseCode := "__no_suffix_0100A" },
       { blankCourse with courseCode := "0100" }]).Nodup ∧
    (collapseCatalog
      [{ blankCourse with courseCode := "__no_suffix_0100A" },
       { blankCourse with courseCode := "0100" }]).length = 1 ∧
    numCollapsedPairs
      [{ blankCourse with courseCode := "__no_suffix_0100A" },
       { blankCourse with courseCode := "0100" }] = 0 ∧
    ([{ blankCourse with courseCode := "__no_suffix_0100A" },
      { blankCourse with courseCode := "0100" }] : List Course).length = 2 := by
  refine ⟨by decide, by decide, by decide, rfl⟩

/-- Witness for C7 on a catalog with one complete pair and one plain course. -/
theorem c7_witness :
    ((([{ blankCourse with courseCode := "0100A" },
        { blankCourse with courseCode := "0100B" },
        { blankCourse with courseCode := "0200" }] : List Course).map
      (fun c => c.courseCode.data)).Nodup) ∧
    (∀ c ∈ ([{ blankCourse with courseCode := "0100A" },
        { blankCourse with courseCode := "0100B" },
        { blankCourse with courseCode := "0200" }] : List Course),
      startsWithL noSuffixTag c.courseCode.data = false) ∧
    (collapseCatalog [{ blankCourse with courseCode := "0100A" },
        { blankCourse with courseCode := "0100B" },
        { blankCourse with courseCode := "0200" }]).length +
      numCollapsedPairs [{ blankCourse with courseCode := "0100A" },
        { blankCourse with courseCode := "0100B" },
        { blankCourse with courseCode := "0200" }] =
      ([{ blankCourse with courseCode := "0100A" },
        { blankCourse with courseCode := "0100B" },
        { blankCourse with courseCode := "0200" }] : List Course).length :=
  ⟨by decide, by decide,
    (c7_collapse_cardinality
      [{ blankCourse with courseCode := "0100A" },
       { blankCourse with courseCode := "0100B" },
       { blankCourse with courseCode := "0200" }] (by decide) (by decide)).1⟩

/-! ### Claims about the prerequisite resolver (C9, C4) -/

/-- C9 (amended): resolution is a fixed point at an existing courseCode
provided the code is not a bare numeral or Roman-numeral string (those are
rejected by the standalone-number guard before the code lookup), is not the
n/a sentinel or a `corequisite:`-prefixed string, is already trimmed, and
contains no `or`/`and` clause separator: then `findCourseCode` returns the
code itself and `convertPrerequisite` leaves it unchanged. -/
theorem c9_fixed_point_amended (courses : List Course) (x : String)
    (hcode : isCourseCode courses x = true)
    (htr : strTrim x = x) (hne : x ≠ "") (hna : strLower x ≠ "n/a")
    (hcq : strStartsWith (strLower x) "corequisite:" = false)
    (hdig : allDigits x.data = false) (hrom : allRoman x.data = false)
    (hor : orTest x.data = false) (hand : andTest x.data = false) :
    findCourseCode courses x = some x ∧ convertPrerequisite courses x = x := by
  have hguard : ¬(x = "" ∨ strTrim x = "" ∨ strLower x = "n/a") := by
    push_neg
    exact ⟨hne, by rw [htr]; exact hne, hna⟩
  have hcore : findCourseCodeCore courses x = some x := by
    unfold findCourseCodeCore
    rw [hdig, hrom, hcode]
    simp
  have hff : findCourseCode courses x = some x := by
    unfold findCourseCode
    rw [if_neg hguard]
    dsimp only []
    rw [htr, hcq, if_neg Bool.false_ne_true]
    exact hcore
  refine ⟨hff, ?_⟩
  unfold convertPrerequisite
  rw [if_neg hguard]
  dsimp only []
  rw [htr, hcq, if_neg Bool.false_ne_true]
  unfold convertPrereqOfTrimmed
  rw [hor, if_neg Bool.false_ne_true]
  unfold convertAnd
  rw [hand, if_neg Bool.false_ne_true]
  unfold convertSimple
  rw [hff]
  rfl

/-- Witness for C9's amended theorem on a concrete catalog. -/
theorem c9_witness :
    isCourseCode catM "MATH1" = true ∧
    allDigits ("MATH1" : String).data = false ∧
    findCourseCode catM "MATH1" = some "MATH1" ∧
    convertPrerequisite catM "MATH1" = "MATH1" := by
  refine ⟨by decide, by decide, ?_, ?_⟩
  · exact (c9_fixed_point_amended catM "MATH1"
      (by decide) (by decide) (by decide) (by decide) (by decide) (by decide)
      (by decide) (by decide) (by decide)).1
  · exact (c9_fixed_point_amended catM "MATH1"
      (by decide) (by decide) (by decide) (by decide) (by decide) (by decide)
      (by decide) (by decide) (by decide)).2

/-- C9 counterexample: `"0100"` is an existing courseCode of the catalog, yet
`findCourseCode` returns null for it because the standalone-number guard
(`/^\d+$/`) fires before the already-a-code check; the claimed fixed point
`findCourseCode(x) = x` fails for every purely numeric catalog code. -/
theorem c9_counterexample :
    isCourseCode catNum "0100" = true ∧
    findCourseCode catNum "0100" = none := by
  refine ⟨by decide, by decide⟩

/-- C4 (amended): a prerequisite containing an `and`/`&` clause separator (and
not handled by the `or` branch) is split into clauses, each clause is resolved
(clauses with credit-hour or grade-level text are kept verbatim), and the
resolved clauses are joined with `" or "` exactly when every resolved clause
is code-shaped — consists solely of uppercase letters and digits
(`/^[A-Z0-9]+$/`), regardless of catalog membership — and no original clause
contained non-course qualifying text; otherwise they are joined with
`" and "`. -/
theorem c4_and_join_amended (courses : List Course) (p : String)
    (hne : p ≠ "") (htr : strTrim p = p) (hna : strLower p ≠ "n/a")
    (hcq : strStartsWith (strLower p) "corequisite:" = false)
    (hor : orTest p.data = false) (hand : andTest p.data = true)
    (hparts : andParts p ≠ []) :
    convertPrerequisite courses p =
      (if ((andParts p).map (resolveAndClause courses)).all codeShaped &&
          !((andParts p).any (fun q => nonCourseTest q.data)) then
        joinSep " or " ((andParts p).map (resolveAndClause courses))
      else
        joinSep " and " ((andParts p).map (resolveAndClause courses))) := by
  have hguard : ¬(p = "" ∨ strTrim p = "" ∨ strLower p = "n/a") := by
    push_neg
    exact ⟨hne, by rw [htr]; exact hne, hna⟩
  unfold convertPrerequisite
  rw [if_neg hguard]
  dsimp only []
  rw [htr, hcq, if_neg Bool.false_ne_true]
  unfold convertPrereqOfTrimmed
  rw [hor, if_neg Bool.false_ne_true]
  unfold convertAnd
  rw [hand, if_pos rfl, if_pos hparts]

/-- Witness for C4's amended theorem: `"FOO and BAR"` against a one-course
catalog joins with `" or "` because both clauses are code-shaped, although
neither is a course code of the catalog. -/
theorem c4_witness :
    orTest ("FOO and BAR" : String).data = false ∧
    andTest ("FOO and BAR" : String).data = true ∧
    andParts "FOO and BAR" ≠ [] ∧
    convertPrerequisite catX "FOO and BAR" =
      (if ((andParts "FOO and BAR").map (resolveAndClause catX)).all codeShaped &&
          !((andParts "FOO and BAR").any (fun q => nonCourseTest q.data)) then
        joinSep " or " ((andParts "FOO and BAR").map (resolveAndClause catX))
      else
        joinSep " and " ((andParts "FOO and BAR").map (resolveAndClause catX))) :=
  ⟨by decide, by decide, by decide,
    c4_and_join_amended catX "FOO and BAR" (by decide) (by decide) (by decide)
      (by decide) (by decide) (by decide) (by decide)⟩

/-- C4 counterexample: the clauses `"FOO"` and `"BAR"` are not course codes of
the catalog (so the claim requires the original `" and "` to be preserved),
yet the migration joins them with `" or "` — the all-clauses-matched test is
the syntactic pattern `/^[A-Z0-9]+$/`, not catalog membership. -/
theorem c4_counterexample :
    convertPrerequisite catX "FOO and BAR" = "FOO or BAR" ∧
    isCourseCode catX "FOO" = false ∧
    isCourseCode catX "BAR" = false ∧
    nonCourseTest ("FOO" : String).data = false ∧
    nonCourseTest ("BAR" : String).data = false := by
  refine ⟨by decide, by decide, by decide, by decide, by decide⟩
